import Mathlib

/-!
Verification of the lastpass-python core against its specification.

Byte strings are modelled as `List Nat` (each element a byte value < 256) and
text strings as `List Char`.  The AES block primitive comes from the external
pycryptodome library, so it is abstracted as a pair of functions
`enc dec : List Nat → List Nat` on 16-byte blocks; everything layered on top of
it (PKCS#7 padding, CBC chaining, the `!iv|ct` framing, base64) is translated
from `lastpass/cipher.py`.
-/

namespace LastPass

/-- Model of the base64 alphabet map (RFC 4648, as used by `base64.b64encode`):
value `0..63` to the ASCII code of its alphabet character. -/
def b64Char (n : Nat) : Nat :=
  if n < 26 then 65 + n
  else if n < 52 then 97 + (n - 26)
  else if n < 62 then 48 + (n - 52)
  else if n = 62 then 43 else 47

/-- Inverse alphabet map for decoding; non-alphabet characters map to 0. -/
def b64Val (c : Nat) : Nat :=
  if 65 ≤ c ∧ c ≤ 90 then c - 65
  else if 97 ≤ c ∧ c ≤ 122 then c - 97 + 26
  else if 48 ≤ c ∧ c ≤ 57 then c - 48 + 52
  else if c = 43 then 62
  else if c = 47 then 63
  else 0

/-- Model of `base64.b64encode` (Python standard library) on byte lists:
three input bytes become four alphabet characters, with `=` (61) padding for a
final group of one or two bytes. -/
def b64Encode : List Nat → List Nat
  | [] => []
  | [a] => [b64Char (a / 4), b64Char (a % 4 * 16), 61, 61]
  | [a, b] => [b64Char (a / 4), b64Char (a % 4 * 16 + b / 16), b64Char (b % 16 * 4), 61]
  | a :: b :: c :: rest =>
      b64Char (a / 4) :: b64Char (a % 4 * 16 + b / 16) ::
        b64Char (b % 16 * 4 + c / 64) :: b64Char (c % 64) :: b64Encode rest

/-- Model of `base64.b64decode` on well-formed input: groups of four
characters become three bytes, `=`-padded tail groups become one or two. -/
def b64Decode : List Nat → List Nat
  | c1 :: c2 :: c3 :: c4 :: rest =>
      let v1 := b64Val c1
      let v2 := b64Val c2
      if c3 = 61 then [v1 * 4 + v2 / 16]
      else
        let v3 := b64Val c3
        if c4 = 61 then [v1 * 4 + v2 / 16, v2 % 16 * 16 + v3 / 4]
        else (v1 * 4 + v2 / 16) :: (v2 % 16 * 16 + v3 / 4) ::
              (v3 % 4 * 64 + b64Val c4) :: b64Decode rest
  | _ => []

theorem b64Val_b64Char (n : Nat) (h : n < 64) : b64Val (b64Char n) = n := by
  simp only [b64Char, b64Val]
  split_ifs <;> omega

theorem b64Char_ne_61 (n : Nat) : b64Char n ≠ 61 := by
  simp only [b64Char]; split_ifs <;> omega

theorem b64Char_ne_124 (n : Nat) : b64Char n ≠ 124 := by
  simp only [b64Char]; split_ifs <;> omega

theorem b64Char_lt (n : Nat) : b64Char n < 256 := by
  simp only [b64Char]; split_ifs <;> omega

/-- Decoding inverts encoding on genuine byte lists. -/
theorem b64Decode_b64Encode : ∀ l : List Nat, (∀ b ∈ l, b < 256) →
    b64Decode (b64Encode l) = l
  | [], _ => rfl
  | [a], h => by
    have ha : a < 256 := h a (by simp)
    simp only [b64Encode, b64Decode, if_true]
    rw [b64Val_b64Char _ (by omega), b64Val_b64Char _ (by omega)]
    simp only [List.cons.injEq, and_true]
    omega
  | [a, b], h => by
    have ha : a < 256 := h a (by simp)
    have hb : b < 256 := h b (by simp)
    simp only [b64Encode, b64Decode, if_true]
    rw [if_neg (b64Char_ne_61 _)]
    rw [b64Val_b64Char _ (by omega), b64Val_b64Char _ (by omega),
      b64Val_b64Char _ (by omega)]
    simp only [List.cons.injEq, and_true]
    omega
  | a :: b :: c :: rest, h => by
    have ha : a < 256 := h a (by simp)
    have hb : b < 256 := h b (by simp)
    have hc : c < 256 := h c (by simp)
    have ih := b64Decode_b64Encode rest (fun x hx => h x (by simp [hx]))
    simp only [b64Encode, b64Decode]
    rw [if_neg (b64Char_ne_61 _), if_neg (b64Char_ne_61 _)]
    rw [b64Val_b64Char _ (by omega), b64Val_b64Char _ (by omega),
      b64Val_b64Char _ (by omega), b64Val_b64Char _ (by omega), ih]
    simp only [List.cons.injEq, and_true]
    omega

/-- No encoded character is the pipe separator byte 124. -/
theorem b64Encode_ne_pipe : ∀ l : List Nat, ∀ x ∈ b64Encode l, x ≠ 124
  | [], x, hx => by simp [b64Encode] at hx
  | [a], x, hx => by
    simp only [b64Encode, List.mem_cons, List.not_mem_nil, or_false] at hx
    rcases hx with h | h | h | h <;> subst h <;> first | exact b64Char_ne_124 _ | omega
  | [a, b], x, hx => by
    simp only [b64Encode, List.mem_cons, List.not_mem_nil, or_false] at hx
    rcases hx with h | h | h | h <;> subst h <;> first | exact b64Char_ne_124 _ | omega
  | a :: b :: c :: rest, x, hx => by
    simp only [b64Encode, List.mem_cons] at hx
    rcases hx with h | h | h | h | h
    · subst h; exact b64Char_ne_124 _
    · subst h; exact b64Char_ne_124 _
    · subst h; exact b64Char_ne_124 _
    · subst h; exact b64Char_ne_124 _
    · exact b64Encode_ne_pipe rest x h

/-- Split at the first occurrence of the pipe byte 124, as `split(b'|', 1)`
with exactly two resulting parts; `none` when no separator occurs (the source
then raises a DecryptionException). -/
def splitFirstPipe : List Nat → Option (List Nat × List Nat)
  | [] => none
  | c :: rest =>
      if c = 124 then some ([], rest)
      else match splitFirstPipe rest with
        | some (a, b) => some (c :: a, b)
        | none => none

theorem splitFirstPipe_append (xs ys : List Nat) (hxs : ∀ x ∈ xs, x ≠ 124) :
    splitFirstPipe (xs ++ 124 :: ys) = some (xs, ys) := by
  induction xs with
  | nil => simp [splitFirstPipe]
  | cons c rest ih =>
    have hc : c ≠ 124 := hxs c (by simp)
    have ih' := ih (fun x hx => hxs x (by simp [hx]))
    simp only [List.cons_append, splitFirstPipe, if_neg hc, List.append_eq, ih']

/-- Model of `Crypto.Util.Padding.pad` with PKCS#7 and block size 16. -/
def pkcs7Pad (l : List Nat) : List Nat :=
  l ++ List.replicate (16 - l.length % 16) (16 - l.length % 16)

/-- Model of the tolerant unpadding in `cipher.py`: `unpad` is attempted and
on a `ValueError` (empty input, length not a multiple of 16, or invalid
padding bytes) the data is returned as-is. -/
def pkcs7Unpad (l : List Nat) : List Nat :=
  match l.getLast? with
  | none => l
  | some n =>
      if l.length % 16 = 0 ∧ 1 ≤ n ∧ n ≤ 16 ∧ n ≤ l.length ∧
          l.drop (l.length - n) = List.replicate n n
      then l.take (l.length - n)
      else l

theorem pkcs7Pad_length (l : List Nat) : (pkcs7Pad l).length % 16 = 0 := by
  have : l.length % 16 < 16 := Nat.mod_lt _ (by omega)
  simp only [pkcs7Pad, List.length_append, List.length_replicate]
  omega

theorem pkcs7Unpad_pkcs7Pad (l : List Nat) : pkcs7Unpad (pkcs7Pad l) = l := by
  have hm : l.length % 16 < 16 := Nat.mod_lt _ (by omega)
  obtain ⟨k, hk⟩ : ∃ k, 16 - l.length % 16 = k + 1 := ⟨15 - l.length % 16, by omega⟩
  have hlast : (pkcs7Pad l).getLast? = some (16 - l.length % 16) := by
    rw [pkcs7Pad, List.getLast?_append, hk, List.replicate_succ',
      List.getLast?_concat, ← hk]
    rfl
  simp only [pkcs7Unpad, hlast]
  have hlen : (pkcs7Pad l).length = l.length + (16 - l.length % 16) := by
    simp [pkcs7Pad]
  rw [if_pos]
  · rw [hlen, Nat.add_sub_cancel, pkcs7Pad, List.take_left]
  · refine ⟨pkcs7Pad_length l, by omega, by omega, by omega, ?_⟩
    rw [hlen, Nat.add_sub_cancel, pkcs7Pad, List.drop_left]

/-- Chunk a byte list into consecutive 16-byte blocks (the block traversal a
CBC/ECB cipher object performs over its input buffer). -/
def toBlocks (l : List Nat) : List (List Nat) :=
  if l = [] then [] else l.take 16 :: toBlocks (l.drop 16)
termination_by l.length
decreasing_by
  rename_i h
  have : l.length ≠ 0 := fun hh => h (List.eq_nil_of_length_eq_zero hh)
  simp only [List.length_drop]
  omega

theorem toBlocks_nil : toBlocks [] = [] := by rw [toBlocks]; simp

theorem toBlocks_flatten : ∀ bs : List (List Nat), (∀ b ∈ bs, b.length = 16) →
    toBlocks bs.flatten = bs
  | [], _ => by simp [toBlocks_nil]
  | b :: rest, h => by
    have hb : b.length = 16 := h b (by simp)
    rw [List.flatten_cons, toBlocks]
    rw [if_neg (by
      intro hc
      have := congrArg List.length hc
      simp [hb] at this)]
    have ht : List.take 16 (b ++ rest.flatten) = b := by
      rw [← hb, List.take_left]
    have hd : List.drop 16 (b ++ rest.flatten) = rest.flatten := by
      rw [← hb, List.drop_left]
    rw [ht, hd, toBlocks_flatten rest (fun x hx => h x (by simp [hx]))]

theorem flatten_toBlocks (l : List Nat) : (toBlocks l).flatten = l := by
  rw [toBlocks]
  split
  · simp [*]
  · rename_i h
    have : l.length ≠ 0 := fun hh => h (List.eq_nil_of_length_eq_zero hh)
    have hlt : l.length - 16 < l.length := by omega
    rw [List.flatten_cons, flatten_toBlocks (l.drop 16), List.take_append_drop]
termination_by l.length
decreasing_by simpa using hlt

theorem toBlocks_length_mem (l : List Nat) (hl : l.length % 16 = 0) :
    ∀ b ∈ toBlocks l, b.length = 16 := by
  rw [toBlocks]
  split
  · simp
  · rename_i h
    have hlen0 : l.length ≠ 0 := fun hh => h (List.eq_nil_of_length_eq_zero hh)
    have h16 : 16 ≤ l.length := by omega
    have : l.length - 16 < l.length := by omega
    intro b hb
    rcases List.mem_cons.mp hb with hb | hb
    · subst hb; simp [List.length_take]; omega
    · exact toBlocks_length_mem (l.drop 16)
        (by simp [List.length_drop]; omega) b hb
termination_by l.length
decreasing_by simpa using this

theorem toBlocks_mem_lt (l : List Nat) (hl : ∀ x ∈ l, x < 256) :
    ∀ b ∈ toBlocks l, ∀ x ∈ b, x < 256 := by
  rw [toBlocks]
  split
  · simp
  · rename_i h
    have hlen0 : l.length ≠ 0 := fun hh => h (List.eq_nil_of_length_eq_zero hh)
    have : l.length - 16 < l.length := by omega
    intro b hb
    rcases List.mem_cons.mp hb with hb | hb
    · subst hb; intro x hx; exact hl x (List.mem_of_mem_take hx)
    · exact toBlocks_mem_lt (l.drop 16)
        (fun x hx => hl x (List.mem_of_mem_drop hx)) b hb
termination_by l.length
decreasing_by simpa using this

/-- Bytewise XOR, the chaining step of CBC mode. -/
def xorBytes (a b : List Nat) : List Nat := List.zipWith (fun x y => x ^^^ y) a b

theorem xorBytes_length (a b : List Nat) :
    (xorBytes a b).length = min a.length b.length := by
  simp [xorBytes]

theorem xorBytes_cancel : ∀ a b : List Nat, a.length = b.length →
    xorBytes a (xorBytes a b) = b
  | [], [], _ => rfl
  | [], _ :: _, h => by simp at h
  | _ :: _, [], h => by simp at h
  | x :: a, y :: b, h => by
    simp only [xorBytes, List.zipWith_cons_cons, List.cons.injEq]
    refine ⟨?_, xorBytes_cancel a b (by simpa using h)⟩
    rw [← Nat.xor_assoc, Nat.xor_self, Nat.zero_xor]

theorem xorBytes_lt : ∀ a b : List Nat, (∀ x ∈ a, x < 256) →
    (∀ x ∈ b, x < 256) → ∀ x ∈ xorBytes a b, x < 256
  | [], _, _, _ => by simp [xorBytes]
  | _ :: _, [], _, _ => by simp [xorBytes]
  | x :: a, y :: b, ha, hb => by
    intro z hz
    simp only [xorBytes, List.zipWith_cons_cons] at hz
    rcases List.mem_cons.mp hz with hz | hz
    · subst hz
      have hx : x < 256 := ha x (by simp)
      have hy : y < 256 := hb y (by simp)
      have e : (2 : Nat) ^ 8 = 256 := by norm_num
      have hx8 : x < 2 ^ 8 := by rw [e]; exact hx
      have hy8 : y < 2 ^ 8 := by rw [e]; exact hy
      have hxy := Nat.xor_lt_two_pow hx8 hy8
      rw [e] at hxy
      exact hxy
    · exact xorBytes_lt a b (fun u hu => ha u (by simp [hu]))
        (fun u hu => hb u (by simp [hu])) z hz

/-- CBC encryption over a block list: each plaintext block is XORed with the
previous ciphertext block (initially the IV) and passed through the block
cipher. -/
def cbcEncBlocks (enc : List Nat → List Nat) (prev : List Nat) :
    List (List Nat) → List (List Nat)
  | [] => []
  | p :: rest =>
      let c := enc (xorBytes prev p)
      c :: cbcEncBlocks enc c rest

/-- CBC decryption over a block list. -/
def cbcDecBlocks (dec : List Nat → List Nat) (prev : List Nat) :
    List (List Nat) → List (List Nat)
  | [] => []
  | c :: rest => xorBytes prev (dec c) :: cbcDecBlocks dec c rest

/-- ECB decryption over a block list (legacy framing). -/
def ecbDecBlocks (dec : List Nat → List Nat) (blocks : List (List Nat)) :
    List (List Nat) :=
  blocks.map dec

theorem cbcDecBlocks_cbcEncBlocks (enc dec : List Nat → List Nat)
    (henclen : ∀ b : List Nat, b.length = 16 → (enc b).length = 16)
    (hdec : ∀ b : List Nat, b.length = 16 → dec (enc b) = b) :
    ∀ (blocks : List (List Nat)) (prev : List Nat), prev.length = 16 →
      (∀ b ∈ blocks, b.length = 16) →
      cbcDecBlocks dec prev (cbcEncBlocks enc prev blocks) = blocks
  | [], _, _, _ => rfl
  | p :: rest, prev, hprev, hbl => by
    have hp : p.length = 16 := hbl p (by simp)
    have hxlen : (xorBytes prev p).length = 16 := by
      rw [xorBytes_length, hprev, hp]; simp
    simp only [cbcEncBlocks, cbcDecBlocks, List.cons.injEq]
    constructor
    · rw [hdec _ hxlen, xorBytes_cancel prev p (by omega)]
    · exact cbcDecBlocks_cbcEncBlocks enc dec henclen hdec rest _
        (henclen _ hxlen) (fun b hb => hbl b (by simp [hb]))

theorem cbcEncBlocks_length (enc : List Nat → List Nat)
    (henclen : ∀ b : List Nat, b.length = 16 → (enc b).length = 16) :
    ∀ (blocks : List (List Nat)) (prev : List Nat), prev.length = 16 →
      (∀ b ∈ blocks, b.length = 16) →
      ∀ c ∈ cbcEncBlocks enc prev blocks, c.length = 16
  | [], _, _, _ => by simp [cbcEncBlocks]
  | p :: rest, prev, hprev, hbl => by
    have hp : p.length = 16 := hbl p (by simp)
    have hxlen : (xorBytes prev p).length = 16 := by
      rw [xorBytes_length, hprev, hp]; simp
    intro c hc
    rcases List.mem_cons.mp hc with hc | hc
    · subst hc; exact henclen _ hxlen
    · exact cbcEncBlocks_length enc henclen rest _ (henclen _ hxlen)
        (fun b hb => hbl b (by simp [hb])) c hc

theorem cbcEncBlocks_lt (enc : List Nat → List Nat)
    (henclen : ∀ b : List Nat, b.length = 16 → (enc b).length = 16)
    (henclt : ∀ b : List Nat, b.length = 16 → (∀ x ∈ b, x < 256) →
      ∀ x ∈ enc b, x < 256) :
    ∀ (blocks : List (List Nat)) (prev : List Nat), prev.length = 16 →
      (∀ x ∈ prev, x < 256) →
      (∀ b ∈ blocks, b.length = 16) → (∀ b ∈ blocks, ∀ x ∈ b, x < 256) →
      ∀ c ∈ cbcEncBlocks enc prev blocks, ∀ x ∈ c, x < 256
  | [], _, _, _, _, _ => by simp [cbcEncBlocks]
  | p :: rest, prev, hprev, hprevlt, hbl, hblt => by
    have hp : p.length = 16 := hbl p (by simp)
    have hxlen : (xorBytes prev p).length = 16 := by
      rw [xorBytes_length, hprev, hp]; simp
    have hxlt : ∀ x ∈ xorBytes prev p, x < 256 :=
      xorBytes_lt prev p hprevlt (hblt p (by simp))
    intro c hc
    rcases List.mem_cons.mp hc with hc | hc
    · subst hc; exact henclt _ hxlen hxlt
    · exact cbcEncBlocks_lt enc henclen henclt rest _ (henclen _ hxlen)
        (henclt _ hxlen hxlt) (fun b hb => hbl b (by simp [hb]))
        (fun b hb => hblt b (by simp [hb])) c hc

/-- Model of `aes_encrypt` from `cipher.py`: empty plaintext maps to empty
output, otherwise the PKCS#7-padded plaintext is CBC-encrypted under a fresh
IV and framed as `'!' ++ base64(iv) ++ '|' ++ base64(ciphertext)`.  The
pycryptodome AES-256 block permutation for the 32-byte key is abstracted as
`enc`, and the random IV is passed explicitly. -/
def aes_encrypt (enc : List Nat → List Nat) (iv plaintext : List Nat) :
    List Nat :=
  if plaintext = [] then []
  else 33 :: (b64Encode iv ++ 124 ::
    b64Encode (cbcEncBlocks enc iv (toBlocks (pkcs7Pad plaintext))).flatten)

/-- Model of `aes_decrypt` from `cipher.py`: empty input maps to empty output;
an input starting with `'!'` (33) is split at the first `'|'` (124) into a
base64 IV and base64 ciphertext and CBC-decrypted with tolerant unpadding; any
other input is ECB-decrypted.  Conditions under which pycryptodome raises
(missing separator, IV not 16 bytes, data not a block multiple) become
`Except.error`, the source's DecryptionException. -/
def aes_decrypt (dec : List Nat → List Nat) (ciphertext : List Nat) :
    Except Unit (List Nat) :=
  match ciphertext with
  | [] => .ok []
  | c :: rest =>
      if c = 33 then
        match splitFirstPipe rest with
        | none => .error ()
        | some (ivB, dataB) =>
            let iv := b64Decode ivB
            let data := b64Decode dataB
            if iv.length = 16 ∧ data.length % 16 = 0 then
              .ok (pkcs7Unpad (cbcDecBlocks dec iv (toBlocks data)).flatten)
            else .error ()
      else
        if (c :: rest : List Nat).length % 16 = 0 then
          .ok (pkcs7Unpad (ecbDecBlocks dec (toBlocks (c :: rest))).flatten)
        else .error ()

theorem pkcs7Pad_lt (p : List Nat) (hp : ∀ x ∈ p, x < 256) :
    ∀ x ∈ pkcs7Pad p, x < 256 := by
  intro x hx
  rcases List.mem_append.mp hx with hx | hx
  · exact hp x hx
  · have := List.eq_of_mem_replicate hx
    omega

theorem flatten_sixteen_mod (bs : List (List Nat))
    (h : ∀ b ∈ bs, b.length = 16) : bs.flatten.length % 16 = 0 := by
  induction bs with
  | nil => simp
  | cons b rest ih =>
    have hb : b.length = 16 := h b (by simp)
    simp only [List.flatten_cons, List.length_append, hb]
    have := ih (fun x hx => h x (by simp [hx]))
    omega

/-- Claim C1: for every 32-byte key (abstracted as an AES-256 block
permutation `enc` with inverse `dec`) and every plaintext, decrypting the
CBC-framed encryption with the same key returns the plaintext. -/
theorem aes_decrypt_aes_encrypt (enc dec : List Nat → List Nat)
    (iv p : List Nat)
    (hivlen : iv.length = 16) (hivlt : ∀ b ∈ iv, b < 256)
    (hp : ∀ b ∈ p, b < 256)
    (henclen : ∀ b : List Nat, b.length = 16 → (enc b).length = 16)
    (henclt : ∀ b : List Nat, b.length = 16 → (∀ x ∈ b, x < 256) →
      ∀ x ∈ enc b, x < 256)
    (hdec : ∀ b : List Nat, b.length = 16 → dec (enc b) = b) :
    aes_decrypt dec (aes_encrypt enc iv p) = .ok p := by
  by_cases hpe : p = []
  · subst hpe; simp [aes_encrypt, aes_decrypt]
  · rw [aes_encrypt, if_neg hpe]
    have hblen : ∀ b ∈ toBlocks (pkcs7Pad p), b.length = 16 :=
      toBlocks_length_mem _ (pkcs7Pad_length p)
    have hblt : ∀ b ∈ toBlocks (pkcs7Pad p), ∀ x ∈ b, x < 256 :=
      toBlocks_mem_lt _ (pkcs7Pad_lt p hp)
    have hctlen : ∀ c ∈ cbcEncBlocks enc iv (toBlocks (pkcs7Pad p)),
        c.length = 16 :=
      cbcEncBlocks_length enc henclen _ iv hivlen hblen
    have hctlt : ∀ x ∈ (cbcEncBlocks enc iv (toBlocks (pkcs7Pad p))).flatten,
        x < 256 := by
      intro x hx
      rcases List.mem_flatten.mp hx with ⟨c, hc, hxc⟩
      exact cbcEncBlocks_lt enc henclen henclt _ iv hivlen hivlt hblen hblt
        c hc x hxc
    have hsplit := splitFirstPipe_append (b64Encode iv)
      (b64Encode (cbcEncBlocks enc iv (toBlocks (pkcs7Pad p))).flatten)
      (b64Encode_ne_pipe iv)
    simp only [aes_decrypt, if_pos rfl, hsplit,
      b64Decode_b64Encode iv hivlt, b64Decode_b64Encode _ hctlt]
    have hcond : iv.length = 16 ∧
        (cbcEncBlocks enc iv (toBlocks (pkcs7Pad p))).flatten.length % 16 = 0 :=
      ⟨hivlen, flatten_sixteen_mod _ hctlen⟩
    rw [if_pos hcond]
    rw [toBlocks_flatten _ hctlen,
      cbcDecBlocks_cbcEncBlocks enc dec henclen hdec _ iv hivlen hblen,
      flatten_toBlocks, pkcs7Unpad_pkcs7Pad]
    simp

/-- Witness for C1 at a concrete input: the identity block permutation, the
all-zero IV and the one-byte plaintext 97. -/
theorem aes_decrypt_aes_encrypt_witness :
    (List.replicate 16 0 : List Nat).length = 16 ∧
    aes_decrypt (fun b => b)
      (aes_encrypt (fun b => b) (List.replicate 16 0) [97]) = .ok [97] :=
  ⟨by decide, aes_decrypt_aes_encrypt (fun b => b) (fun b => b)
    (List.replicate 16 0) [97] (by simp)
    (by intro b hb; have := List.eq_of_mem_replicate hb; omega)
    (by intro b hb; simp at hb; omega)
    (fun _ h => h) (fun _ _ h => h) (fun _ _ => rfl)⟩

/-- Counterexample to claim C2 as stated: for the empty plaintext,
`aes_encrypt` returns the empty byte string, which does not begin with the
byte 33, the character `!`. -/
theorem aes_encrypt_empty_no_bang :
    ¬ (aes_encrypt (fun b => b) (List.replicate 16 0) []).head? = some 33 := by
  decide

/-- Claim C2 amended: for every key and every nonempty plaintext, the output
of `aes_encrypt` begins with the byte 33, the character `!`. -/
theorem aes_encrypt_head_bang (enc : List Nat → List Nat) (iv p : List Nat)
    (hp : p ≠ []) : (aes_encrypt enc iv p).head? = some 33 := by
  rw [aes_encrypt, if_neg hp]; rfl

/-- Witness for the amended C2 at a concrete nonempty plaintext. -/
theorem aes_encrypt_head_bang_witness :
    ([97] : List Nat) ≠ [] ∧
    (aes_encrypt (fun b => b) (List.replicate 16 0) [97]).head? = some 33 :=
  ⟨by decide, aes_encrypt_head_bang (fun b => b) (List.replicate 16 0) [97]
    (by decide)⟩

/-- Claim C10: for every key, encrypting the empty plaintext returns the
empty byte string and decrypting the empty input returns the empty byte
string; neither path errors. -/
theorem aes_empty_io (enc dec : List Nat → List Nat) (iv : List Nat) :
    aes_encrypt enc iv [] = [] ∧ aes_decrypt dec [] = .ok [] :=
  ⟨by simp [aes_encrypt], rfl⟩

/-! Text strings are modelled as `List Char`; the Python string operations
used by `notes.py` and `client.py` (split, strip, lower, startswith, index,
slicing) are given explicit executable models below. -/

abbrev LCh := List Char

/-- Shorthand turning a string literal into its character list. -/
def str (s : String) : LCh := s.data

/-- Characters removed by Python `str.strip()` with no argument. -/
def isPySpace (c : Char) : Bool :=
  c = ' ' ∨ c = '\t' ∨ c = '\n' ∨ c = '\r' ∨ c = '\x0b' ∨ c = '\x0c'

/-- Model of Python `str.strip()`: remove the maximal whitespace prefix and
suffix. -/
def pyStrip (l : LCh) : LCh :=
  List.rdropWhile isPySpace (l.dropWhile isPySpace)

/-- Model of Python `str.rstrip('\n')`. -/
def rstripNl (l : LCh) : LCh :=
  List.rdropWhile (fun c => c = '\n') l

/-- Model of Python `str.lower()` on path-of-ASCII names. -/
def pyLower (l : LCh) : LCh := l.map Char.toLower

/-- Model of Python `s.split('\n')`: the list of newline-separated pieces,
empty pieces included; the empty string yields one empty piece. -/
def splitNl : LCh → List LCh
  | [] => [[]]
  | c :: rest =>
      if c = '\n' then [] :: splitNl rest
      else
        match splitNl rest with
        | l :: ls => (c :: l) :: ls
        | [] => [[c]]

/-- Model of Python `'\n'.join(pieces)`. -/
def joinNl : List LCh → LCh
  | [] => []
  | [l] => l
  | l :: ls => l ++ '\n' :: joinNl ls

/-- Model of Python `s.startswith(p)` (first argument the sought prefix). -/
def startsWith : LCh → LCh → Bool
  | [], _ => true
  | _ :: _, [] => false
  | p :: ps, c :: cs => p = c && startsWith ps cs

/-- Index of the first colon in a line, as Python `line.index(':')` on lines
already known to contain a colon. -/
def colonIdx : LCh → Nat
  | [] => 0
  | c :: rest => if c = ':' then 0 else colonIdx rest + 1

/-! Data model from `models.py` (the `to_dict` projections and app-specific
display strings are not needed by any claim and are omitted; all fields read
or written by `notes.py` and the client search/logout paths are present). -/

/-- Custom field of an account, from `models.py`. -/
structure Field where
  name : LCh
  value : LCh
  type : LCh
  checked : Bool
deriving DecidableEq

/-- Attachment metadata, from `models.py`. -/
structure Attachment where
  id : LCh
  parent_id : LCh
  mimetype : LCh
  filename : LCh
  size : LCh
  storage_key : LCh
deriving DecidableEq

/-- Shared-folder record, from `models.py` (the symmetric key bytes). -/
structure Share where
  id : LCh
  name : LCh
  key : List Nat
  readonly : Bool
deriving DecidableEq

/-- Vault account record, from `models.py`. -/
structure Account where
  id : LCh
  name : LCh
  username : LCh
  password : LCh
  url : LCh
  group : LCh
  notes : LCh
  fullname : LCh
  last_touch : LCh
  last_modified_gmt : LCh
  pwprotect : Bool
  favorite : Bool
  is_app : Bool
  attach_present : Bool
  attachkey : LCh
  fields : List Field
  attachments : List Attachment
  share : Option Share
deriving DecidableEq

/-! Secure-note templates from `note_types.py`. -/

/-- Supported secure note types. -/
inductive NoteType where
  | NONE | GENERIC | AMEX | BANK | CREDIT | DATABASE | DRIVERS_LICENSE
  | EMAIL | HEALTH_INSURANCE | IM | INSURANCE | MASTERCARD | MEMBERSHIP
  | PASSPORT | SERVER | SOFTWARE_LICENSE | SSH_KEY | SSN | VISA | WIFI
deriving DecidableEq, BEq

/-- Template definition for a note type. -/
structure NoteTemplate where
  shortname : LCh
  name : LCh
  fields : List LCh
  multiline_fields : List LCh
deriving DecidableEq

/-- The `NOTE_TEMPLATES` dictionary in its insertion order. -/
def NOTE_TEMPLATES : List (NoteType × NoteTemplate) := [
  (NoteType.GENERIC, ⟨str "generic", str "Generic", [], []⟩),
  (NoteType.AMEX, ⟨str "amex", str "American Express",
    [str "Name on Card", str "Type", str "Number", str "Security Code",
     str "Start Date", str "Expiration Date", str "Name", str "Address",
     str "City / Town", str "State", str "ZIP / Postal Code", str "Country",
     str "Telephone"], []⟩),
  (NoteType.BANK, ⟨str "bank", str "Bank Account",
    [str "Bank Name", str "Account Type", str "Routing Number",
     str "Account Number", str "SWIFT Code", str "IBAN Number", str "Pin",
     str "Branch Address", str "Branch Phone"], []⟩),
  (NoteType.CREDIT, ⟨str "creditcard", str "Credit Card",
    [str "Name on Card", str "Type", str "Number", str "Security Code",
     str "Start Date", str "Expiration Date", str "Name", str "Address",
     str "City / Town", str "State", str "ZIP / Postal Code", str "Country",
     str "Telephone"], []⟩),
  (NoteType.DATABASE, ⟨str "database", str "Database",
    [str "Type", str "Hostname", str "Port", str "Database", str "Username",
     str "Password", str "SID", str "Alias"], []⟩),
  (NoteType.DRIVERS_LICENSE, ⟨str "driverslicense", str "Driver's License",
    [str "Number", str "Expiration Date", str "License Class", str "Name",
     str "Address", str "City / Town", str "State", str "ZIP / Postal Code",
     str "Country", str "Date of Birth", str "Sex", str "Height"], []⟩),
  (NoteType.EMAIL, ⟨str "email", str "Email Account",
    [str "Username", str "Password", str "Server", str "Port", str "Type",
     str "SMTP Server", str "SMTP Port"], []⟩),
  (NoteType.HEALTH_INSURANCE, ⟨str "health-insurance", str "Health Insurance",
    [str "Company", str "Company Phone", str "Policy Type",
     str "Policy Number", str "Group ID", str "Member Name", str "Member ID",
     str "Physician Name", str "Physician Phone", str "Physician Address",
     str "Co-pay"], []⟩),
  (NoteType.IM, ⟨str "im", str "Instant Messenger",
    [str "Type", str "Username", str "Password", str "Server", str "Port"],
    []⟩),
  (NoteType.INSURANCE, ⟨str "insurance", str "Insurance",
    [str "Company", str "Policy Type", str "Policy Number", str "Expiration",
     str "Agent Name", str "Agent Phone", str "URL", str "Username",
     str "Password"], []⟩),
  (NoteType.MASTERCARD, ⟨str "mastercard", str "Mastercard",
    [str "Name on Card", str "Type", str "Number", str "Security Code",
     str "Start Date", str "Expiration Date", str "Name", str "Address",
     str "City / Town", str "State", str "ZIP / Postal Code", str "Country",
     str "Telephone"], []⟩),
  (NoteType.MEMBERSHIP, ⟨str "membership", str "Membership",
    [str "Organization", str "Membership Number", str "Member Name",
     str "Start Date", str "Expiration Date", str "Website", str "Telephone",
     str "Password"], []⟩),
  (NoteType.PASSPORT, ⟨str "passport", str "Passport",
    [str "Type", str "Name", str "Country", str "Number", str "Sex",
     str "Nationality", str "Issuing Authority", str "Date of Birth",
     str "Issued Date", str "Expiration Date"], []⟩),
  (NoteType.SERVER, ⟨str "server", str "Server",
    [str "Hostname", str "Username", str "Password"], []⟩),
  (NoteType.SOFTWARE_LICENSE, ⟨str "software-license", str "Software License",
    [str "License Key", str "Licensee", str "Version", str "Publisher",
     str "Support Email", str "Website", str "Price", str "Purchase Date",
     str "Order Number", str "Number of Licenses", str "Order Total"], []⟩),
  (NoteType.SSH_KEY, ⟨str "sshkey", str "SSH Key",
    [str "Bit Strength", str "Format", str "Passphrase", str "Private Key",
     str "Public Key", str "Hostname", str "Date"],
    [str "Private Key", str "Public Key"]⟩),
  (NoteType.SSN, ⟨str "ssn", str "Social Security",
    [str "Name", str "Number"], []⟩),
  (NoteType.VISA, ⟨str "visa", str "VISA",
    [str "Name on Card", str "Type", str "Number", str "Security Code",
     str "Start Date", str "Expiration Date", str "Name", str "Address",
     str "City / Town", str "State", str "ZIP / Postal Code", str "Country",
     str "Telephone"], []⟩),
  (NoteType.WIFI, ⟨str "wifi", str "WiFi Password",
    [str "SSID", str "Password", str "Connection Type", str "Connection Mode",
     str "Authentication", str "Encryption", str "Use 802.1X",
     str "FIPS Mode", str "Key Type", str "Protected", str "Key Index"], []⟩)]

/-- Model of `get_note_type_by_name`: first template whose lowercased full
name equals the lowercased argument. -/
def get_note_type_by_name (name : LCh) : Option NoteType :=
  ((NOTE_TEMPLATES.find? (fun p => pyLower p.2.name == pyLower name)).map
    Prod.fst)

/-- Model of `get_template`. -/
def get_template (nt : NoteType) : Option NoteTemplate :=
  (NOTE_TEMPLATES.find? (fun p => p.1 == nt)).map Prod.snd

/-- Model of `is_multiline_field`. -/
def is_multiline_field (nt : NoteType) (field_name : LCh) : Bool :=
  match get_template nt with
  | some t => if t.multiline_fields.isEmpty then false
              else t.multiline_fields.contains field_name
  | none => false

/-- Model of `has_field`. -/
def has_field (nt : NoteType) (field_name : LCh) : Bool :=
  match get_template nt with
  | some t => t.fields.contains field_name
  | none => false

/-! Secure-note expansion and collapse from `notes.py`. -/

/-- Model of `is_secure_note`. -/
def is_secure_note (a : Account) : Bool := a.url == str "http://sn"

/-- Mutable loop state of `notes_expand`: the expanded special fields, the
accumulated custom fields, and whether `current_field` aliases the last
element of `fields` (Python mutates that aliased object in place). -/
structure ExpandState where
  username : LCh
  password : LCh
  url : LCh
  notes : LCh
  fields : List Field
  cur : Bool
deriving DecidableEq

/-- In-place mutation `current_field.value += suffix` where `current_field`
aliases the last field of the list. -/
def appendToLast : List Field → LCh → List Field
  | [], _ => []
  | [f], suffix => [{ f with value := f.value ++ suffix }]
  | f :: g :: rest, suffix => f :: appendToLast (g :: rest) suffix

/-- The multiline-continuation test guarding `current_field.value += line`
for a colon line: a known note type, a live `current_field`, a key that is
not a template field, and a multiline current field. -/
def contCheck (nt : Option NoteType) (st : ExpandState) (key : LCh) : Bool :=
  match nt, st.fields.getLast? with
  | some t, some lf => st.cur && !has_field t key && is_multiline_field t lf.name
  | _, _ => false

/-- The parsed custom field of a colon line: text before the first colon as
the name, stripped text after it as the value. -/
def lineField (line : LCh) : Field :=
  ⟨line.take (colonIdx line), pyStrip (line.drop (colonIdx line + 1)),
    str "text", false⟩

/-- The line loop of `notes_expand`; the `Notes:` branch consumes every
remaining line and breaks. -/
def expandLoop (nt : Option NoteType) : List LCh → ExpandState → ExpandState
  | [], st => st
  | line :: rest, st =>
      if line = [] ∧ st.cur = false then expandLoop nt rest st
      else if startsWith (str "Notes:") line then
        { st with notes := rstripNl (
            if rest ≠ [] then
              if pyStrip (line.drop 6) ≠ [] then
                pyStrip (line.drop 6) ++ '\n' :: joinNl rest
              else joinNl rest
            else pyStrip (line.drop 6)) }
      else if ':' ∈ line then
        if contCheck nt st (line.take (colonIdx line)) then
          expandLoop nt rest
            { st with fields := appendToLast st.fields ('\n' :: line) }
        else if line.take (colonIdx line) = str "Username" then
          expandLoop nt rest
            { st with
                username := pyStrip (line.drop (colonIdx line + 1))
                cur := false }
        else if line.take (colonIdx line) = str "Password" then
          expandLoop nt rest
            { st with
                password := pyStrip (line.drop (colonIdx line + 1))
                cur := false }
        else if line.take (colonIdx line) = str "URL" then
          expandLoop nt rest
            { st with
                url := pyStrip (line.drop (colonIdx line + 1))
                cur := false }
        else if line.take (colonIdx line) = str "NoteType" then
          expandLoop nt rest
            { st with fields := st.fields ++ [lineField line], cur := false }
        else
          expandLoop nt rest
            { st with fields := st.fields ++ [lineField line], cur := true }
      else
        if st.cur then
          expandLoop nt rest
            { st with fields := appendToLast st.fields ('\n' :: line) }
        else expandLoop nt rest st

/-- Model of `notes_expand`: parse a secure note body into separate
username/password/url, ordered custom fields, and a free-form notes tail.
Returns `none` for non-secure-note accounts or bodies not starting with
`NoteType:`. -/
def notes_expand (a : Account) : Option Account :=
  if ¬ is_secure_note a then none
  else if ¬ startsWith (str "NoteType:") a.notes then none
  else
    let lines := splitNl a.notes
    let note_type : Option NoteType :=
      match lines with
      | [] => none
      | first :: _ =>
          if startsWith (str "NoteType:") first then
            get_note_type_by_name (pyStrip (first.drop 9))
          else none
    let st := expandLoop note_type lines ⟨[], [], [], [], [], false⟩
    let finalNotes :=
      if st.username = [] ∧ st.password = [] ∧ st.url = [] ∧ st.notes = [] ∧
          st.fields = []
      then a.notes else st.notes
    some {
      id := a.id, name := a.name, username := st.username,
      password := st.password, url := st.url, group := a.group,
      notes := finalNotes, fullname := a.fullname, last_touch := [],
      last_modified_gmt := [], pwprotect := a.pwprotect, favorite := false,
      is_app := false, attach_present := a.attach_present,
      attachkey := a.attachkey, fields := st.fields,
      attachments := a.attachments, share := a.share }

/-- Model of `notes_collapse`: emit the first `NoteType` field, the other
custom fields in order, then non-empty `Username`/`Password`/`URL` (the
latter unless it is the secure-note marker), then a `Notes:` line; values are
stripped on emit and the result's url is the secure-note marker. -/
def notes_collapse (a : Account) : Account :=
  let ntLine : List LCh :=
    match a.fields.find? (fun f => f.name == str "NoteType") with
    | some f => [pyStrip f.name ++ ':' :: pyStrip f.value]
    | none => []
  let otherLines := (a.fields.filter (fun f => !(f.name == str "NoteType"))).map
      (fun f => pyStrip f.name ++ ':' :: pyStrip f.value)
  let specials :=
    (if a.username ≠ [] ∧ pyStrip a.username ≠ [] then
      [str "Username:" ++ pyStrip a.username] else []) ++
    (if a.password ≠ [] ∧ pyStrip a.password ≠ [] then
      [str "Password:" ++ pyStrip a.password] else []) ++
    (if a.url ≠ [] ∧ pyStrip a.url ≠ [] ∧ a.url ≠ str "http://sn" then
      [str "URL:" ++ pyStrip a.url] else []) ++
    (if a.notes ≠ [] ∧ pyStrip a.notes ≠ [] then
      [str "Notes:" ++ pyStrip a.notes] else [])
  { id := a.id, name := a.name, username := [], password := [],
    url := str "http://sn", group := a.group,
    notes := joinNl (ntLine ++ otherLines ++ specials),
    fullname := a.fullname, last_touch := [], last_modified_gmt := [],
    pwprotect := a.pwprotect, favorite := false, is_app := false,
    attach_present := a.attach_present, attachkey := a.attachkey,
    fields := [], attachments := a.attachments, share := a.share }

/-- The scenario S4 account: a secure note with a Server-typed body. -/
def s4Account : Account :=
  { id := str "123", name := str "Note", username := [], password := [],
    url := str "http://sn", group := [],
    notes := str "NoteType:Server\nHostname:h\nUsername:u\nPassword:p\nNotes:line1\nline2",
    fullname := str "Note", last_touch := [], last_modified_gmt := [],
    pwprotect := false, favorite := false, is_app := false,
    attach_present := false, attachkey := [], fields := [],
    attachments := [], share := none }

/-- The comparison projection of the round-trip law: username, password,
url, notes, and the custom-field list. -/
def rtProj (e : Account) : LCh × LCh × LCh × LCh × List Field :=
  (e.username, e.password, e.url, e.notes, e.fields)

/-- Claim C4: the S4 secure-note body expands to username `u`, password `p`,
first custom field `(NoteType, Server)`, second `(Hostname, h)`, and notes
`line1\nline2`. -/
theorem notes_expand_s4 :
    (notes_expand s4Account).map rtProj =
      some (str "u", str "p", [], str "line1\nline2",
        [⟨str "NoteType", str "Server", str "text", false⟩,
         ⟨str "Hostname", str "h", str "text", false⟩]) := by
  decide

/-- A secure-note account whose single custom-field line carries a
leading space in its key. -/
def cexSpaceAccount : Account :=
  { id := str "1", name := str "n", username := [], password := [],
    url := str "http://sn", group := [],
    notes := str "NoteType:Server\n Hostname:h",
    fullname := str "n", last_touch := [], last_modified_gmt := [],
    pwprotect := false, favorite := false, is_app := false,
    attach_present := false, attachkey := [], fields := [],
    attachments := [], share := none }

/-- Counterexample to claim C3 as stated: for the secure-note body
`NoteType:Server\n Hostname:h` the expanded field name ` Hostname` keeps its
leading space, but collapse emits the stripped name, so the re-expanded
field list differs from the first expansion. -/
theorem notes_roundtrip_cex :
    ((notes_expand cexSpaceAccount).bind
        (fun e => notes_expand (notes_collapse e))).map rtProj ≠
      (notes_expand cexSpaceAccount).map rtProj := by
  decide

/-! Infrastructure for the amended round-trip law: a characterization of
`notes_expand` on bodies made of a `NoteType:` line, plain `key:value`
lines, and an optional trailing `Notes:` section. -/

/-- A `key:value` body line. -/
def mkKVLine (kv : LCh × LCh) : LCh := kv.1 ++ ':' :: kv.2

/-- The body lines of the trailing `Notes:` section. -/
def notesTail : List LCh → List LCh
  | [] => []
  | n0 :: nrest => (str "Notes:" ++ n0) :: nrest

/-- A secure-note body with type name `t`, key-value lines `kvs` and
free-form notes lines `ns`. -/
def mkNoteBody (t : LCh) (kvs : List (LCh × LCh)) (ns : List LCh) : LCh :=
  joinNl ((str "NoteType:" ++ t) :: (kvs.map mkKVLine ++ notesTail ns))

/-- The keys that populate top-level fields instead of custom fields. -/
def isSpecialKey (k : LCh) : Bool :=
  k == str "Username" || k == str "Password" || k == str "URL"

/-- Last-wins value of special key `k` over the key-value lines. -/
def lastValue (k : LCh) (kvs : List (LCh × LCh)) (dflt : LCh) : LCh :=
  kvs.foldl (fun acc kv => if kv.1 = k then pyStrip kv.2 else acc) dflt

/-- The custom fields produced from the key-value lines: every key except
the three special ones, with stripped value. -/
def customsOf (kvs : List (LCh × LCh)) : List Field :=
  kvs.filterMap (fun kv =>
    if isSpecialKey kv.1 then none
    else some ⟨kv.1, pyStrip kv.2, str "text", false⟩)

/-- One key-value line's effect on the loop state. -/
def applyKV (st : ExpandState) (kv : LCh × LCh) : ExpandState :=
  if kv.1 = str "Username" then
    { st with username := pyStrip kv.2, cur := false }
  else if kv.1 = str "Password" then
    { st with password := pyStrip kv.2, cur := false }
  else if kv.1 = str "URL" then
    { st with url := pyStrip kv.2, cur := false }
  else if kv.1 = str "NoteType" then
    { st with
        fields := st.fields ++ [⟨kv.1, pyStrip kv.2, str "text", false⟩]
        cur := false }
  else
    { st with
        fields := st.fields ++ [⟨kv.1, pyStrip kv.2, str "text", false⟩]
        cur := true }

/-- Fold of `applyKV` over the key-value lines. -/
def applyKVs : ExpandState → List (LCh × LCh) → ExpandState
  | st, [] => st
  | st, kv :: rest => applyKVs (applyKV st kv) rest

/-- The value of a special key and the custom-field pairs that `collapse`
re-emits for an expanded account. -/
def customPairs (kvs : List (LCh × LCh)) : List (LCh × LCh) :=
  kvs.filterMap (fun kv =>
    if isSpecialKey kv.1 then none else some (kv.1, pyStrip kv.2))

/-- The expansion of a clean structured body: last-wins special fields, the
`NoteType` field followed by the custom fields, and the joined notes lines. -/
def expandResult (a : Account) (t : LCh) (kvs : List (LCh × LCh))
    (ns : List LCh) : Account :=
  { id := a.id, name := a.name,
    username := lastValue (str "Username") kvs [],
    password := lastValue (str "Password") kvs [],
    url := lastValue (str "URL") kvs [],
    group := a.group,
    notes := if ns = [] then [] else joinNl ns,
    fullname := a.fullname, last_touch := [], last_modified_gmt := [],
    pwprotect := a.pwprotect, favorite := false, is_app := false,
    attach_present := a.attach_present, attachkey := a.attachkey,
    fields := ⟨str "NoteType", pyStrip t, str "text", false⟩ :: customsOf kvs,
    attachments := a.attachments, share := a.share }

/-- A note type without multiline template fields; the continuation branch
of the parse loop is dead for such bodies. -/
def noMultiline (ont : Option NoteType) : Prop :=
  match ont with
  | none => True
  | some nt =>
      match get_template nt with
      | some t => t.multiline_fields = []
      | none => True

theorem colonIdx_append (k v : LCh) (hk : ':' ∉ k) :
    colonIdx (k ++ ':' :: v) = k.length := by
  induction k with
  | nil => simp [colonIdx]
  | cons c rest ih =>
    have hc : ¬(c = ':') := fun h => hk (by simp [h])
    simp only [List.cons_append, colonIdx, if_neg hc, List.append_eq,
      ih (fun h => hk (by simp [h])), List.length_cons]

theorem drop_append_colon (k v : LCh) : (k ++ ':' :: v).drop (k.length + 1) = v := by
  rw [← List.singleton_append, ← List.append_assoc]
  have h : k.length + 1 = (k ++ [':']).length := by simp
  rw [h, List.drop_left]

theorem startsWith_append_self : ∀ p rest : LCh, startsWith p (p ++ rest) = true
  | [], _ => rfl
  | c :: p, rest => by simp [startsWith, startsWith_append_self p rest]

theorem startsWith_colon_line : ∀ p k v : LCh, ':' ∉ p → ':' ∉ k →
    (startsWith (p ++ [':']) (k ++ ':' :: v) = true ↔ k = p)
  | [], [], v, _, _ => by simp [startsWith]
  | [], c :: k, v, _, hk => by
    have hc : ¬(':' = c) := fun h => hk (by simp [← h])
    simp [startsWith, hc]
  | p0 :: p, [], v, hp, _ => by
    have hp0 : ¬(p0 = ':') := fun h => hp (by simp [h])
    simp [startsWith, hp0]
  | p0 :: p, k0 :: k, v, hp, hk => by
    have ih := startsWith_colon_line p k v (fun h => hp (by simp [h]))
      (fun h => hk (by simp [h]))
    simp only [List.cons_append, startsWith, Bool.and_eq_true, decide_eq_true_eq,
      List.append_eq, ih, List.cons.injEq]
    constructor
    · rintro ⟨h1, h2⟩; exact ⟨h1.symm, h2⟩
    · rintro ⟨h1, h2⟩; exact ⟨h1.symm, h2⟩

theorem startsWith_notes_kv (k v : LCh) (hk : ':' ∉ k)
    (hne : k ≠ str "Notes") :
    startsWith (str "Notes:") (k ++ ':' :: v) = false := by
  have h := startsWith_colon_line (str "Notes") k v (by decide) hk
  have he : str "Notes:" = str "Notes" ++ [':'] := rfl
  rw [he]
  cases hsw : startsWith (str "Notes" ++ [':']) (k ++ ':' :: v) with
  | false => rfl
  | true => exact absurd (h.mp hsw) hne

theorem splitNl_no_nl : ∀ l : LCh, '\n' ∉ l → splitNl l = [l]
  | [], _ => rfl
  | c :: rest, h => by
    have hc : ¬(c = '\n') := fun hh => h (by simp [hh])
    simp [splitNl, hc, splitNl_no_nl rest (fun hh => h (by simp [hh]))]

theorem splitNl_append : ∀ l rest : LCh, '\n' ∉ l →
    splitNl (l ++ '\n' :: rest) = l :: splitNl rest
  | [], rest, _ => by simp [splitNl]
  | c :: t, rest, h => by
    have hc : ¬(c = '\n') := fun hh => h (by simp [hh])
    have ih := splitNl_append t rest (fun hh => h (by simp [hh]))
    simp [splitNl, hc, ih]

theorem joinNl_cons_ne (l : LCh) (ls : List LCh) (h : ls ≠ []) :
    joinNl (l :: ls) = l ++ '\n' :: joinNl ls := by
  cases ls with
  | nil => exact absurd rfl h
  | cons a b => rfl

theorem splitNl_joinNl : ∀ lines : List LCh, (∀ l ∈ lines, '\n' ∉ l) →
    lines ≠ [] → splitNl (joinNl lines) = lines
  | [], _, h => absurd rfl h
  | [l], h, _ => splitNl_no_nl l (h l (by simp))
  | l :: l2 :: rest, h, _ => by
    rw [joinNl_cons_ne l (l2 :: rest) (by simp),
      splitNl_append l _ (h l (by simp)),
      splitNl_joinNl (l2 :: rest) (fun x hx => h x (by simp [hx])) (by simp)]

theorem head_not_of_dropWhile_self (p : Char → Bool) (b : Char) (t : LCh)
    (h : (b :: t).dropWhile p = b :: t) : p b = false := by
  by_contra hb
  rw [Bool.not_eq_false] at hb
  rw [List.dropWhile_cons_of_pos hb] at h
  have hlen := congrArg List.length h
  have hle := List.Sublist.length_le (List.dropWhile_sublist (l := t) (p := p))
  simp at hlen
  omega

theorem pyStrip_idem (l : LCh) : pyStrip (pyStrip l) = pyStrip l := by
  unfold pyStrip
  have hAself : (l.dropWhile isPySpace).dropWhile isPySpace =
      l.dropWhile isPySpace := List.dropWhile_idempotent isPySpace l
  have hpre : List.rdropWhile isPySpace (l.dropWhile isPySpace) <+:
      l.dropWhile isPySpace := List.rdropWhile_prefix isPySpace _
  have hdw : (List.rdropWhile isPySpace (l.dropWhile isPySpace)).dropWhile
      isPySpace = List.rdropWhile isPySpace (l.dropWhile isPySpace) := by
    rcases hpre with ⟨s, hs⟩
    cases hB : List.rdropWhile isPySpace (l.dropWhile isPySpace) with
    | nil => simp
    | cons b bs =>
      rw [hB] at hs
      have hAeq : l.dropWhile isPySpace = b :: (bs ++ s) := by
        rw [← hs]; simp
      have hqb : isPySpace b = false := by
        apply head_not_of_dropWhile_self isPySpace b (bs ++ s)
        rw [← hAeq]; exact hAself
      exact List.dropWhile_cons_of_neg (by simp [hqb])
  rw [hdw, List.rdropWhile_idempotent]

theorem pyStrip_eq_self_parts (l : LCh) (h : pyStrip l = l) :
    l.dropWhile isPySpace = l ∧ List.rdropWhile isPySpace l = l := by
  have hsub1 : (pyStrip l).length ≤ (l.dropWhile isPySpace).length :=
    (List.rdropWhile_prefix isPySpace _).length_le
  have hsub2 : (l.dropWhile isPySpace).length ≤ l.length :=
    (List.dropWhile_sublist (l := l) (p := isPySpace)).length_le
  have hlen : (pyStrip l).length = l.length := by rw [h]
  have hAlen : (l.dropWhile isPySpace).length = l.length := by omega
  have hA : l.dropWhile isPySpace = l :=
    (List.dropWhile_suffix isPySpace).eq_of_length hAlen
  refine ⟨hA, ?_⟩
  have h2 := h
  unfold pyStrip at h2
  rw [hA] at h2
  exact h2

theorem mem_pyStrip (l : LCh) (x : Char) (hx : x ∈ pyStrip l) : x ∈ l := by
  unfold pyStrip at hx
  have h1 := (List.rdropWhile_prefix isPySpace
    (l.dropWhile isPySpace)).sublist.subset hx
  exact (List.dropWhile_sublist (l := l) (p := isPySpace)).subset h1

theorem dropWhile_append_self (p : Char → Bool) (l m : LCh)
    (hl : l.dropWhile p = l) (hne : l ≠ []) :
    (l ++ m).dropWhile p = l ++ m := by
  cases l with
  | nil => exact absurd rfl hne
  | cons b t =>
    have hb := head_not_of_dropWhile_self p b t hl
    rw [List.cons_append, List.dropWhile_cons_of_neg (by simp [hb])]

theorem joinNl_ends : ∀ ns : List LCh,
    (∀ l ∈ ns, l ≠ [] ∧ List.rdropWhile isPySpace l = l) → ns ≠ [] →
    ∃ m c, joinNl ns = m ++ [c] ∧ isPySpace c = false
  | [], _, hne => absurd rfl hne
  | [l], h, _ => by
    have hl := h l (by simp)
    have hlast := List.rdropWhile_eq_self_iff.mp hl.2 hl.1
    exact ⟨l.dropLast, l.getLast hl.1,
      (List.dropLast_append_getLast hl.1).symm, by simpa using hlast⟩
  | l :: l2 :: rest, h, _ => by
    obtain ⟨m, c, hm, hc⟩ := joinNl_ends (l2 :: rest)
      (fun x hx => h x (by simp [hx])) (by simp)
    refine ⟨l ++ '\n' :: m, c, ?_, hc⟩
    rw [joinNl_cons_ne _ _ (by simp), hm]
    simp

theorem pyStrip_joinNl (ns : List LCh)
    (h : ∀ l ∈ ns, l ≠ [] ∧ pyStrip l = l) (hne : ns ≠ []) :
    pyStrip (joinNl ns) = joinNl ns := by
  obtain ⟨n0, rest, rfl⟩ : ∃ n0 rest, ns = n0 :: rest := by
    cases ns with
    | nil => exact absurd rfl hne
    | cons a b => exact ⟨a, b, rfl⟩
  have hn0 := h n0 (by simp)
  have hparts0 := pyStrip_eq_self_parts n0 hn0.2
  have hdw : (joinNl (n0 :: rest)).dropWhile isPySpace = joinNl (n0 :: rest) := by
    cases rest with
    | nil => exact hparts0.1
    | cons a b =>
      rw [joinNl_cons_ne _ _ (by simp)]
      exact dropWhile_append_self _ _ _ hparts0.1 hn0.1
  have hre : List.rdropWhile isPySpace (joinNl (n0 :: rest)) =
      joinNl (n0 :: rest) := by
    obtain ⟨m, c, hm, hc⟩ := joinNl_ends (n0 :: rest)
      (fun x hx => ⟨(h x hx).1, (pyStrip_eq_self_parts x (h x hx).2).2⟩)
      (by simp)
    rw [hm]
    exact List.rdropWhile_concat_neg _ _ _ (by simp [hc])
  unfold pyStrip
  rw [hdw, hre]

theorem is_multiline_field_false_of (nt : NoteType)
    (hnm : noMultiline (some nt)) (x : LCh) : is_multiline_field nt x = false := by
  unfold noMultiline at hnm
  unfold is_multiline_field
  cases hgt : get_template nt with
  | none => rfl
  | some t =>
    simp only [hgt] at hnm
    simp [hnm]

theorem contCheck_false (nt : Option NoteType) (st : ExpandState) (key : LCh)
    (hnm : noMultiline nt) : contCheck nt st key = false := by
  unfold contCheck
  cases nt with
  | none =>
    cases st.fields.getLast? with
    | none => rfl
    | some lf => rfl
  | some t =>
    cases st.fields.getLast? with
    | none => rfl
    | some lf => simp [is_multiline_field_false_of t hnm lf.name]

theorem mkKVLine_ne_nil (kv : LCh × LCh) : mkKVLine kv ≠ [] := by
  simp [mkKVLine]

theorem colon_mem_mkKVLine (kv : LCh × LCh) : ':' ∈ mkKVLine kv := by
  simp [mkKVLine]

theorem lineField_mkKVLine (k v : LCh) (hk : ':' ∉ k) :
    lineField (mkKVLine (k, v)) = ⟨k, pyStrip v, str "text", false⟩ := by
  unfold lineField mkKVLine
  rw [colonIdx_append k v hk, List.take_left, drop_append_colon]

theorem take_colonIdx_mkKVLine (k v : LCh) (hk : ':' ∉ k) :
    (mkKVLine (k, v)).take (colonIdx (mkKVLine (k, v))) = k := by
  unfold mkKVLine
  rw [colonIdx_append k v hk, List.take_left]

theorem drop_colonIdx_mkKVLine (k v : LCh) (hk : ':' ∉ k) :
    (mkKVLine (k, v)).drop (colonIdx (mkKVLine (k, v)) + 1) = v := by
  unfold mkKVLine
  rw [colonIdx_append k v hk, drop_append_colon]

/-- One parse step on a clean `key:value` line is `applyKV`. -/
theorem expandLoop_kv_step (nt : Option NoteType) (hnm : noMultiline nt)
    (k v : LCh) (rest : List LCh) (st : ExpandState) (hk : ':' ∉ k)
    (hnotes : k ≠ str "Notes") :
    expandLoop nt (mkKVLine (k, v) :: rest) st =
      expandLoop nt rest (applyKV st (k, v)) := by
  rw [expandLoop]
  rw [if_neg (fun hc => mkKVLine_ne_nil (k, v) hc.1)]
  rw [if_neg (show ¬ (startsWith (str "Notes:") (mkKVLine (k, v)) = true) by
    unfold mkKVLine
    simp [startsWith_notes_kv k v hk hnotes])]
  rw [if_pos (colon_mem_mkKVLine (k, v))]
  rw [if_neg (show ¬ (contCheck nt st ((mkKVLine (k, v)).take
      (colonIdx (mkKVLine (k, v)))) = true) by
    simp [contCheck_false _ _ _ hnm])]
  rw [take_colonIdx_mkKVLine k v hk, drop_colonIdx_mkKVLine k v hk]
  unfold applyKV
  by_cases h1 : k = str "Username"
  · rw [if_pos h1, if_pos h1]
  · rw [if_neg h1, if_neg h1]
    by_cases h2 : k = str "Password"
    · rw [if_pos h2, if_pos h2]
    · rw [if_neg h2, if_neg h2]
      by_cases h3 : k = str "URL"
      · rw [if_pos h3, if_pos h3]
      · rw [if_neg h3, if_neg h3]
        by_cases h4 : k = str "NoteType"
        · rw [if_pos h4, if_pos h4, lineField_mkKVLine k v hk]
        · rw [if_neg h4, if_neg h4, lineField_mkKVLine k v hk]

/-- The parse loop over clean `key:value` lines is the `applyKV` fold. -/
theorem expandLoop_kv_lines (nt : Option NoteType) (hnm : noMultiline nt) :
    ∀ (kvs : List (LCh × LCh)) (tail : List LCh) (st : ExpandState),
      (∀ kv ∈ kvs, ':' ∉ kv.1 ∧ kv.1 ≠ str "Notes") →
      expandLoop nt (kvs.map mkKVLine ++ tail) st =
        expandLoop nt tail (applyKVs st kvs)
  | [], _, _, _ => rfl
  | (k, v) :: kvs, tail, st, h => by
    have hk := h (k, v) (by simp)
    rw [List.map_cons, List.cons_append,
      expandLoop_kv_step nt hnm k v _ st hk.1 hk.2]
    exact expandLoop_kv_lines nt hnm kvs tail _
      (fun kv hkv => h kv (by simp [hkv]))

/-- The parse step on the `Notes:` line consumes every remaining line. -/
theorem expandLoop_notes_line (nt : Option NoteType) (n0 : LCh)
    (nrest : List LCh) (st : ExpandState) :
    expandLoop nt ((str "Notes:" ++ n0) :: nrest) st =
      { st with notes := rstripNl (
          if nrest ≠ [] then
            if pyStrip n0 ≠ [] then pyStrip n0 ++ '\n' :: joinNl nrest
            else joinNl nrest
          else pyStrip n0) } := by
  rw [expandLoop]
  rw [if_neg (fun hc => by
    have := hc.1
    simp [str] at this)]
  rw [if_pos (show startsWith (str "Notes:") (str "Notes:" ++ n0) = true from
    startsWith_append_self _ _)]
  have hdrop : (str "Notes:" ++ n0).drop 6 = n0 := by
    have h6 : (6 : Nat) = (str "Notes:").length := rfl
    rw [h6, List.drop_left]
  rw [hdrop]

theorem rstripNl_joinNl (ns : List LCh)
    (h : ∀ l ∈ ns, l ≠ [] ∧ pyStrip l = l) (hne : ns ≠ []) :
    rstripNl (joinNl ns) = joinNl ns := by
  obtain ⟨m, c, hm, hc⟩ := joinNl_ends ns
    (fun x hx => ⟨(h x hx).1, (pyStrip_eq_self_parts x (h x hx).2).2⟩) hne
  unfold rstripNl
  rw [hm]
  refine List.rdropWhile_concat_neg _ _ _ ?_
  simp only [decide_eq_true_eq]
  intro hcn
  rw [hcn] at hc
  exact absurd hc (by decide)

theorem applyKV_username (st : ExpandState) (kv : LCh × LCh) :
    (applyKV st kv).username =
      if kv.1 = str "Username" then pyStrip kv.2 else st.username := by
  unfold applyKV
  by_cases h1 : kv.1 = str "Username"
  · simp only [if_pos h1]
  · simp only [if_neg h1]
    by_cases h2 : kv.1 = str "Password"
    · simp only [if_pos h2]
    · simp only [if_neg h2]
      by_cases h3 : kv.1 = str "URL"
      · simp only [if_pos h3]
      · simp only [if_neg h3]
        by_cases h4 : kv.1 = str "NoteType"
        · simp only [if_pos h4]
        · simp only [if_neg h4]

theorem applyKV_password (st : ExpandState) (kv : LCh × LCh) :
    (applyKV st kv).password =
      if kv.1 = str "Password" then pyStrip kv.2 else st.password := by
  unfold applyKV
  by_cases h2 : kv.1 = str "Password"
  · have h1 : ¬ kv.1 = str "Username" := by rw [h2]; decide
    simp only [if_pos h2, if_neg h1]
  · simp only [if_neg h2]
    by_cases h1 : kv.1 = str "Username"
    · simp only [if_pos h1]
    · simp only [if_neg h1]
      by_cases h3 : kv.1 = str "URL"
      · simp only [if_pos h3]
      · simp only [if_neg h3]
        by_cases h4 : kv.1 = str "NoteType"
        · simp only [if_pos h4]
        · simp only [if_neg h4]

theorem applyKV_url (st : ExpandState) (kv : LCh × LCh) :
    (applyKV st kv).url =
      if kv.1 = str "URL" then pyStrip kv.2 else st.url := by
  unfold applyKV
  by_cases h3 : kv.1 = str "URL"
  · have h1 : ¬ kv.1 = str "Username" := by rw [h3]; decide
    have h2 : ¬ kv.1 = str "Password" := by rw [h3]; decide
    simp only [if_pos h3, if_neg h1, if_neg h2]
  · simp only [if_neg h3]
    by_cases h1 : kv.1 = str "Username"
    · simp only [if_pos h1]
    · simp only [if_neg h1]
      by_cases h2 : kv.1 = str "Password"
      · simp only [if_pos h2]
      · simp only [if_neg h2]
        by_cases h4 : kv.1 = str "NoteType"
        · simp only [if_pos h4]
        · simp only [if_neg h4]

theorem applyKV_notes (st : ExpandState) (kv : LCh × LCh) :
    (applyKV st kv).notes = st.notes := by
  unfold applyKV
  by_cases h1 : kv.1 = str "Username"
  · simp only [if_pos h1]
  · simp only [if_neg h1]
    by_cases h2 : kv.1 = str "Password"
    · simp only [if_pos h2]
    · simp only [if_neg h2]
      by_cases h3 : kv.1 = str "URL"
      · simp only [if_pos h3]
      · simp only [if_neg h3]
        by_cases h4 : kv.1 = str "NoteType"
        · simp only [if_pos h4]
        · simp only [if_neg h4]

theorem applyKV_fields (st : ExpandState) (kv : LCh × LCh) :
    (applyKV st kv).fields = st.fields ++
      (if isSpecialKey kv.1 then []
       else [⟨kv.1, pyStrip kv.2, str "text", false⟩]) := by
  unfold applyKV
  by_cases h1 : kv.1 = str "Username"
  · have hs : isSpecialKey kv.1 = true := by simp [isSpecialKey, h1]
    simp [if_pos h1, hs]
  · simp only [if_neg h1]
    by_cases h2 : kv.1 = str "Password"
    · have hs : isSpecialKey kv.1 = true := by simp [isSpecialKey, h2]
      simp [if_pos h2, hs]
    · simp only [if_neg h2]
      by_cases h3 : kv.1 = str "URL"
      · have hs : isSpecialKey kv.1 = true := by simp [isSpecialKey, h3]
        simp [if_pos h3, hs]
      · have hs : isSpecialKey kv.1 = false := by
          simp [isSpecialKey, h1, h2, h3]
        simp only [if_neg h3, hs, Bool.false_eq_true, if_false]
        by_cases h4 : kv.1 = str "NoteType"
        · simp only [if_pos h4]
        · simp only [if_neg h4]

theorem customsOf_cons (kv : LCh × LCh) (kvs : List (LCh × LCh)) :
    customsOf (kv :: kvs) =
      (if isSpecialKey kv.1 then []
       else [⟨kv.1, pyStrip kv.2, str "text", false⟩]) ++ customsOf kvs := by
  unfold customsOf
  rw [List.filterMap_cons]
  by_cases h : isSpecialKey kv.1 = true
  · simp [h]
  · rw [Bool.not_eq_true] at h
    simp [h]

theorem applyKVs_notes : ∀ (kvs : List (LCh × LCh)) (st : ExpandState),
    (applyKVs st kvs).notes = st.notes
  | [], _ => rfl
  | kv :: kvs, st => by
    rw [show applyKVs st (kv :: kvs) = applyKVs (applyKV st kv) kvs from rfl,
      applyKVs_notes kvs _, applyKV_notes]

theorem applyKVs_fields : ∀ (kvs : List (LCh × LCh)) (st : ExpandState),
    (applyKVs st kvs).fields = st.fields ++ customsOf kvs
  | [], st => by simp [applyKVs, customsOf]
  | kv :: kvs, st => by
    rw [show applyKVs st (kv :: kvs) = applyKVs (applyKV st kv) kvs from rfl,
      applyKVs_fields kvs _, applyKV_fields, customsOf_cons, List.append_assoc]

theorem applyKVs_username : ∀ (kvs : List (LCh × LCh)) (st : ExpandState),
    (applyKVs st kvs).username = lastValue (str "Username") kvs st.username
  | [], _ => rfl
  | kv :: kvs, st => by
    rw [show applyKVs st (kv :: kvs) = applyKVs (applyKV st kv) kvs from rfl,
      applyKVs_username kvs _, applyKV_username]
    rfl

theorem applyKVs_password : ∀ (kvs : List (LCh × LCh)) (st : ExpandState),
    (applyKVs st kvs).password = lastValue (str "Password") kvs st.password
  | [], _ => rfl
  | kv :: kvs, st => by
    rw [show applyKVs st (kv :: kvs) = applyKVs (applyKV st kv) kvs from rfl,
      applyKVs_password kvs _, applyKV_password]
    rfl

theorem applyKVs_url : ∀ (kvs : List (LCh × LCh)) (st : ExpandState),
    (applyKVs st kvs).url = lastValue (str "URL") kvs st.url
  | [], _ => rfl
  | kv :: kvs, st => by
    rw [show applyKVs st (kv :: kvs) = applyKVs (applyKV st kv) kvs from rfl,
      applyKVs_url kvs _, applyKV_url]
    rfl

theorem startsWith_mkNoteBody (t : LCh) (kvs : List (LCh × LCh))
    (ns : List LCh) :
    startsWith (str "NoteType:") (mkNoteBody t kvs ns) = true := by
  unfold mkNoteBody
  cases h : kvs.map mkKVLine ++ notesTail ns with
  | nil => exact startsWith_append_self _ _
  | cons x xs =>
    rw [joinNl_cons_ne _ _ (by simp), List.append_assoc]
    exact startsWith_append_self _ _

theorem drop_noteType (t : LCh) : (str "NoteType:" ++ t).drop 9 = t := by
  have h9 : (9 : Nat) = (str "NoteType:").length := rfl
  rw [h9, List.drop_left]

theorem lastValue_noteType_cons (k t : LCh) (kvs : List (LCh × LCh))
    (hk : ¬ str "NoteType" = k) :
    lastValue k ((str "NoteType", t) :: kvs) [] = lastValue k kvs [] := by
  unfold lastValue
  rw [List.foldl_cons, if_neg hk]

/-- Characterization of `notes_expand` on a clean structured body. -/
theorem notes_expand_clean (a : Account) (t : LCh) (kvs : List (LCh × LCh))
    (ns : List LCh)
    (hurl : a.url = str "http://sn")
    (hbody : a.notes = mkNoteBody t kvs ns)
    (ht : '\n' ∉ t)
    (hkvs : ∀ kv ∈ kvs, ':' ∉ kv.1 ∧ '\n' ∉ kv.1 ∧ '\n' ∉ kv.2 ∧
        kv.1 ≠ str "Notes")
    (hns : ∀ l ∈ ns, l ≠ [] ∧ '\n' ∉ l ∧ pyStrip l = l)
    (hnm : noMultiline (get_note_type_by_name (pyStrip t))) :
    notes_expand a = some (expandResult a t kvs ns) := by
  have hsn : is_secure_note a = true := by simp [is_secure_note, hurl]
  have hsw : startsWith (str "NoteType:") a.notes = true := by
    rw [hbody]; exact startsWith_mkNoteBody t kvs ns
  have hlines : splitNl a.notes =
      (str "NoteType:" ++ t) :: (kvs.map mkKVLine ++ notesTail ns) := by
    rw [hbody]
    unfold mkNoteBody
    apply splitNl_joinNl
    · intro l hl
      rcases List.mem_cons.mp hl with rfl | hl
      · intro hmem
        rcases List.mem_append.mp hmem with hm | hm
        · revert hm; decide
        · exact ht hm
      · rcases List.mem_append.mp hl with hl | hl
        · rcases List.mem_map.mp hl with ⟨kv, hkv, rfl⟩
          have hc := hkvs kv hkv
          unfold mkKVLine
          intro hmem
          rcases List.mem_append.mp hmem with hm | hm
          · exact hc.2.1 hm
          · rcases List.mem_cons.mp hm with hm | hm
            · exact absurd hm (by decide)
            · exact hc.2.2.1 hm
        · cases ns with
          | nil => simp [notesTail] at hl
          | cons n0 nrest =>
            unfold notesTail at hl
            rcases List.mem_cons.mp hl with rfl | hl
            · intro hmem
              rcases List.mem_append.mp hmem with hm | hm
              · revert hm; decide
              · exact (hns n0 (by simp)).2.1 hm
            · exact (hns l (by simp [hl])).2.1
    · simp
  have hline1 : (str "NoteType:" ++ t) :: (kvs.map mkKVLine ++ notesTail ns) =
      ((str "NoteType", t) :: kvs).map mkKVLine ++ notesTail ns := rfl
  have hconds : ∀ kv ∈ (str "NoteType", t) :: kvs,
      ':' ∉ kv.1 ∧ kv.1 ≠ str "Notes" := by
    intro kv hkv
    rcases List.mem_cons.mp hkv with rfl | hkv
    · refine ⟨?_, ?_⟩
      · show ':' ∉ str "NoteType"
        decide
      · show str "NoteType" ≠ str "Notes"
        decide
    · exact ⟨(hkvs kv hkv).1, (hkvs kv hkv).2.2.2⟩
  have hloop : expandLoop (get_note_type_by_name (pyStrip t))
      ((str "NoteType:" ++ t) :: (kvs.map mkKVLine ++ notesTail ns))
      ⟨[], [], [], [], [], false⟩ =
      expandLoop (get_note_type_by_name (pyStrip t)) (notesTail ns)
        (applyKVs ⟨[], [], [], [], [], false⟩ ((str "NoteType", t) :: kvs)) := by
    rw [hline1]
    exact expandLoop_kv_lines _ hnm _ _ _ hconds
  have hfields : (applyKVs ⟨[], [], [], [], [], false⟩
      ((str "NoteType", t) :: kvs)).fields =
      ⟨str "NoteType", pyStrip t, str "text", false⟩ :: customsOf kvs := by
    rw [applyKVs_fields, customsOf_cons]
    simp only [isSpecialKey, List.nil_append, beq_iff_eq, Bool.or_eq_true,
      decide_eq_true_eq]
    rw [if_neg (by decide)]
    rfl
  have husr : (applyKVs ⟨[], [], [], [], [], false⟩
      ((str "NoteType", t) :: kvs)).username =
      lastValue (str "Username") kvs [] := by
    rw [applyKVs_username]
    exact lastValue_noteType_cons _ t kvs (by decide)
  have hpwd : (applyKVs ⟨[], [], [], [], [], false⟩
      ((str "NoteType", t) :: kvs)).password =
      lastValue (str "Password") kvs [] := by
    rw [applyKVs_password]
    exact lastValue_noteType_cons _ t kvs (by decide)
  have hurl2 : (applyKVs ⟨[], [], [], [], [], false⟩
      ((str "NoteType", t) :: kvs)).url =
      lastValue (str "URL") kvs [] := by
    rw [applyKVs_url]
    exact lastValue_noteType_cons _ t kvs (by decide)
  unfold notes_expand
  rw [if_neg (by simp [hsn]), if_neg (by simp [hsw])]
  simp only [hlines]
  rw [if_pos (startsWith_append_self (str "NoteType:") t), drop_noteType]
  rw [hloop]
  cases ns with
  | nil =>
    rw [show notesTail [] = [] from rfl]
    rw [show expandLoop (get_note_type_by_name (pyStrip t)) []
        (applyKVs ⟨[], [], [], [], [], false⟩ ((str "NoteType", t) :: kvs)) =
        applyKVs ⟨[], [], [], [], [], false⟩ ((str "NoteType", t) :: kvs)
      from rfl]
    rw [if_neg (by
      intro hcon
      rw [hfields] at hcon
      exact absurd hcon.2.2.2.2 (by simp))]
    rw [husr, hpwd, hurl2, hfields, applyKVs_notes]
    simp [expandResult]
  | cons n0 nrest =>
    have hn0 := hns n0 (by simp)
    rw [show notesTail (n0 :: nrest) = (str "Notes:" ++ n0) :: nrest from rfl]
    rw [expandLoop_notes_line]
    have hcomb : (if nrest ≠ [] then
        (if pyStrip n0 ≠ [] then pyStrip n0 ++ '\n' :: joinNl nrest
         else joinNl nrest)
        else pyStrip n0) = joinNl (n0 :: nrest) := by
      rw [hn0.2.2]
      cases nrest with
      | nil => simp [joinNl]
      | cons b bs =>
        rw [if_pos (by simp), if_pos hn0.1, ← joinNl_cons_ne _ _ (by simp)]
    rw [hcomb,
      rstripNl_joinNl (n0 :: nrest)
        (fun l hl => ⟨(hns l hl).1, (hns l hl).2.2⟩) (by simp)]
    dsimp only
    rw [if_neg (by
      intro hcon
      rw [hfields] at hcon
      exact absurd hcon.2.2.2.2 (by simp))]
    rw [husr, hpwd, hurl2, hfields]
    simp [expandResult]

/-- The special lines `collapse` appends after the custom fields, as
key-value pairs. -/
def specialPairs (kvs : List (LCh × LCh)) : List (LCh × LCh) :=
  (if lastValue (str "Username") kvs [] ≠ [] then
    [(str "Username", lastValue (str "Username") kvs [])] else []) ++
  (if lastValue (str "Password") kvs [] ≠ [] then
    [(str "Password", lastValue (str "Password") kvs [])] else []) ++
  (if lastValue (str "URL") kvs [] ≠ [] then
    [(str "URL", lastValue (str "URL") kvs [])] else [])

theorem lastValue_append (k : LCh) (xs ys : List (LCh × LCh)) (d : LCh) :
    lastValue k (xs ++ ys) d = lastValue k ys (lastValue k xs d) := by
  unfold lastValue
  rw [List.foldl_append]

theorem lastValue_no_key (k : LCh) : ∀ (kvs : List (LCh × LCh)) (d : LCh),
    (∀ kv ∈ kvs, kv.1 ≠ k) → lastValue k kvs d = d
  | [], _, _ => rfl
  | kv :: kvs, d, h => by
    unfold lastValue
    rw [List.foldl_cons, if_neg (h kv (by simp))]
    exact lastValue_no_key k kvs d (fun x hx => h x (by simp [hx]))

theorem pyStrip_lastValue (k : LCh) : ∀ (kvs : List (LCh × LCh)) (d : LCh),
    pyStrip d = d → pyStrip (lastValue k kvs d) = lastValue k kvs d
  | [], _, hd => hd
  | kv :: kvs, d, hd => by
    unfold lastValue
    rw [List.foldl_cons]
    by_cases h : kv.1 = k
    · rw [if_pos h]
      exact pyStrip_lastValue k kvs _ (pyStrip_idem kv.2)
    · rw [if_neg h]
      exact pyStrip_lastValue k kvs d hd

theorem lastValue_ne (k x : LCh) : ∀ (kvs : List (LCh × LCh)) (d : LCh),
    d ≠ x → (∀ kv ∈ kvs, kv.1 = k → pyStrip kv.2 ≠ x) →
    lastValue k kvs d ≠ x
  | [], _, hd, _ => hd
  | kv :: kvs, d, hd, h => by
    unfold lastValue
    rw [List.foldl_cons]
    by_cases hk : kv.1 = k
    · rw [if_pos hk]
      exact lastValue_ne k x kvs _ (h kv (by simp) hk)
        (fun u hu => h u (by simp [hu]))
    · rw [if_neg hk]
      exact lastValue_ne k x kvs d hd (fun u hu => h u (by simp [hu]))

theorem lastValue_mem_or (k : LCh) : ∀ (kvs : List (LCh × LCh)) (d : LCh),
    lastValue k kvs d = d ∨
      ∃ kv ∈ kvs, lastValue k kvs d = pyStrip kv.2
  | [], _ => Or.inl rfl
  | kv :: kvs, d => by
    unfold lastValue
    rw [List.foldl_cons]
    by_cases hk : kv.1 = k
    · rw [if_pos hk]
      rcases lastValue_mem_or k kvs (pyStrip kv.2) with h | ⟨kv2, hkv2, h⟩
      · exact Or.inr ⟨kv, by simp, h⟩
      · exact Or.inr ⟨kv2, by simp [hkv2], h⟩
    · rw [if_neg hk]
      rcases lastValue_mem_or k kvs d with h | ⟨kv2, hkv2, h⟩
      · exact Or.inl h
      · exact Or.inr ⟨kv2, by simp [hkv2], h⟩

theorem mem_customsOf (kvs : List (LCh × LCh)) (f : Field)
    (hf : f ∈ customsOf kvs) :
    ∃ kv ∈ kvs, isSpecialKey kv.1 = false ∧
      f = ⟨kv.1, pyStrip kv.2, str "text", false⟩ := by
  unfold customsOf at hf
  rcases List.mem_filterMap.mp hf with ⟨kv, hkv, hm⟩
  by_cases h : isSpecialKey kv.1 = true
  · rw [if_pos h] at hm; cases hm
  · rw [Bool.not_eq_true] at h
    rw [if_neg (by simp [h])] at hm
    exact ⟨kv, hkv, h, (Option.some.injEq _ _ |>.mp hm).symm⟩

theorem mem_customPairs (kvs : List (LCh × LCh)) (kv2 : LCh × LCh)
    (hf : kv2 ∈ customPairs kvs) :
    ∃ kv ∈ kvs, isSpecialKey kv.1 = false ∧ kv2 = (kv.1, pyStrip kv.2) := by
  unfold customPairs at hf
  rcases List.mem_filterMap.mp hf with ⟨kv, hkv, hm⟩
  by_cases h : isSpecialKey kv.1 = true
  · rw [if_pos h] at hm; cases hm
  · rw [Bool.not_eq_true] at h
    rw [if_neg (by simp [h])] at hm
    exact ⟨kv, hkv, h, (Option.some.injEq _ _ |>.mp hm).symm⟩

theorem customsOf_append (xs ys : List (LCh × LCh)) :
    customsOf (xs ++ ys) = customsOf xs ++ customsOf ys := by
  unfold customsOf
  rw [List.filterMap_append]

theorem customsOf_customPairs : ∀ kvs : List (LCh × LCh),
    customsOf (customPairs kvs) = customsOf kvs
  | [] => rfl
  | kv :: kvs => by
    unfold customPairs customsOf
    rw [List.filterMap_cons]
    by_cases h : isSpecialKey kv.1 = true
    · rw [if_pos h, List.filterMap_cons, if_pos h]
      exact customsOf_customPairs kvs
    · rw [Bool.not_eq_true] at h
      rw [if_neg (by simp [h]), List.filterMap_cons, List.filterMap_cons,
        if_neg (by simp [h]), if_neg (by simp [h])]
      rw [pyStrip_idem]
      have ih := customsOf_customPairs kvs
      unfold customPairs customsOf at ih
      rw [ih]

theorem customsOf_specialPairs (kvs : List (LCh × LCh)) :
    customsOf (specialPairs kvs) = [] := by
  unfold specialPairs customsOf
  rw [List.filterMap_append, List.filterMap_append]
  have h1 : ∀ (c : Prop) [Decidable c] (x : LCh × LCh),
      isSpecialKey x.1 = true →
      List.filterMap (fun kv =>
        if isSpecialKey kv.1 then none
        else some (⟨kv.1, pyStrip kv.2, str "text", false⟩ : Field))
        (if c then [x] else []) = [] := by
    intro c _ x hx
    by_cases hc : c
    · rw [if_pos hc, List.filterMap_cons, if_pos hx]; rfl
    · rw [if_neg hc]; rfl
  rw [h1 _ _ (show isSpecialKey (str "Username") = true by decide),
    h1 _ _ (show isSpecialKey (str "Password") = true by decide),
    h1 _ _ (show isSpecialKey (str "URL") = true by decide)]
  rfl

theorem joinNl_ne_nil (n0 : LCh) (rest : List LCh) (h : n0 ≠ []) :
    joinNl (n0 :: rest) ≠ [] := by
  cases rest with
  | nil => exact h
  | cons b bs =>
    rw [joinNl_cons_ne _ _ (by simp)]
    simp

theorem joinNl_last_expand : ∀ (xs : List LCh) (y z : LCh) (zs : List LCh),
    joinNl (xs ++ [y ++ joinNl (z :: zs)]) = joinNl (xs ++ (y ++ z) :: zs)
  | [], y, z, zs => by
    cases zs with
    | nil => rfl
    | cons b bs =>
      show y ++ joinNl (z :: b :: bs) = joinNl ((y ++ z) :: b :: bs)
      rw [joinNl_cons_ne z (b :: bs) (by simp),
        joinNl_cons_ne (y ++ z) (b :: bs) (by simp), List.append_assoc]
  | x :: xs, y, z, zs => by
    rw [List.cons_append, List.cons_append,
      joinNl_cons_ne x (xs ++ [y ++ joinNl (z :: zs)]) (by simp),
      joinNl_cons_ne x (xs ++ (y ++ z) :: zs) (by simp),
      joinNl_last_expand xs y z zs]

theorem joinNl_notes_tail (x0 : LCh) (A B C D : List LCh) (n0 : LCh)
    (nrest : List LCh) :
    joinNl (x0 :: (A ++ (B ++ (C ++ (D ++
        [str "Notes:" ++ joinNl (n0 :: nrest)]))))) =
    joinNl (x0 :: (A ++ (B ++ (C ++ (D ++
        (str "Notes:" ++ n0) :: nrest))))) := by
  have h1 : x0 :: (A ++ (B ++ (C ++ (D ++
      [str "Notes:" ++ joinNl (n0 :: nrest)])))) =
      (x0 :: (A ++ B ++ C ++ D)) ++ [str "Notes:" ++ joinNl (n0 :: nrest)] := by
    simp [List.append_assoc]
  have h2 : x0 :: (A ++ (B ++ (C ++ (D ++ (str "Notes:" ++ n0) :: nrest)))) =
      (x0 :: (A ++ B ++ C ++ D)) ++ (str "Notes:" ++ n0) :: nrest := by
    simp [List.append_assoc]
  rw [h1, h2, joinNl_last_expand]

theorem collapse_lines_customs : ∀ kvs : List (LCh × LCh),
    (∀ kv ∈ kvs, pyStrip kv.1 = kv.1) →
    (customsOf kvs).map (fun f => pyStrip f.name ++ ':' :: pyStrip f.value) =
      (customPairs kvs).map mkKVLine
  | [], _ => rfl
  | kv :: kvs, h => by
    have ih := collapse_lines_customs kvs (fun x hx => h x (by simp [hx]))
    unfold customsOf customPairs at ih ⊢
    rw [List.filterMap_cons, List.filterMap_cons]
    by_cases hs : isSpecialKey kv.1 = true
    · rw [if_pos hs, if_pos hs]
      exact ih
    · rw [Bool.not_eq_true] at hs
      rw [if_neg (by simp [hs]), if_neg (by simp [hs]), List.map_cons,
        List.map_cons, ih]
      rw [show pyStrip (⟨kv.1, pyStrip kv.2, str "text", false⟩ : Field).name =
        kv.1 from h kv (by simp)]
      rw [show pyStrip (⟨kv.1, pyStrip kv.2, str "text", false⟩ : Field).value =
        pyStrip kv.2 from pyStrip_idem kv.2]
      rfl

/-- Collapsing the expansion of a clean structured body produces the
structured body built from the re-emitted custom and special lines. -/
theorem notes_collapse_clean (a : Account) (t : LCh) (kvs : List (LCh × LCh))
    (ns : List LCh)
    (hkeys : ∀ kv ∈ kvs, pyStrip kv.1 = kv.1 ∧ kv.1 ≠ str "NoteType")
    (hns : ∀ l ∈ ns, l ≠ [] ∧ '\n' ∉ l ∧ pyStrip l = l)
    (hsnurl : lastValue (str "URL") kvs [] ≠ str "http://sn") :
    notes_collapse (expandResult a t kvs ns) =
      { id := a.id, name := a.name, username := [], password := [],
        url := str "http://sn", group := a.group,
        notes := mkNoteBody (pyStrip t) (customPairs kvs ++ specialPairs kvs) ns,
        fullname := a.fullname, last_touch := [], last_modified_gmt := [],
        pwprotect := a.pwprotect, favorite := false, is_app := false,
        attach_present := a.attach_present, attachkey := a.attachkey,
        fields := [], attachments := a.attachments, share := a.share } := by
  have hfind : (List.find? (fun f => f.name == str "NoteType")
      (⟨str "NoteType", pyStrip t, str "text", false⟩ :: customsOf kvs)) =
      some ⟨str "NoteType", pyStrip t, str "text", false⟩ :=
    List.find?_cons_of_pos _ (by simp)
  have hfilter : (List.filter (fun f => !(f.name == str "NoteType"))
      (⟨str "NoteType", pyStrip t, str "text", false⟩ :: customsOf kvs)) =
      customsOf kvs := by
    rw [List.filter_cons_of_neg (by simp)]
    apply List.filter_eq_self.mpr
    intro f hf
    rcases mem_customsOf kvs f hf with ⟨kv, hkv, _, rfl⟩
    simp [(hkeys kv hkv).2]
  have hU : pyStrip (lastValue (str "Username") kvs []) =
      lastValue (str "Username") kvs [] := pyStrip_lastValue _ kvs [] rfl
  have hP : pyStrip (lastValue (str "Password") kvs []) =
      lastValue (str "Password") kvs [] := pyStrip_lastValue _ kvs [] rfl
  have hL : pyStrip (lastValue (str "URL") kvs []) =
      lastValue (str "URL") kvs [] := pyStrip_lastValue _ kvs [] rfl
  have hspecU : (if lastValue (str "Username") kvs [] ≠ [] ∧
        pyStrip (lastValue (str "Username") kvs []) ≠ [] then
        [str "Username:" ++ pyStrip (lastValue (str "Username") kvs [])]
      else []) =
      (if lastValue (str "Username") kvs [] ≠ [] then
        [(str "Username", lastValue (str "Username") kvs [])] else []).map
        mkKVLine := by
    rw [hU]
    by_cases h : lastValue (str "Username") kvs [] = []
    · simp [h]
    · rw [if_pos ⟨h, h⟩, if_pos h]
      rfl
  have hspecP : (if lastValue (str "Password") kvs [] ≠ [] ∧
        pyStrip (lastValue (str "Password") kvs []) ≠ [] then
        [str "Password:" ++ pyStrip (lastValue (str "Password") kvs [])]
      else []) =
      (if lastValue (str "Password") kvs [] ≠ [] then
        [(str "Password", lastValue (str "Password") kvs [])] else []).map
        mkKVLine := by
    rw [hP]
    by_cases h : lastValue (str "Password") kvs [] = []
    · simp [h]
    · rw [if_pos ⟨h, h⟩, if_pos h]
      rfl
  have hspecL : (if lastValue (str "URL") kvs [] ≠ [] ∧
        pyStrip (lastValue (str "URL") kvs []) ≠ [] ∧
        lastValue (str "URL") kvs [] ≠ str "http://sn" then
        [str "URL:" ++ pyStrip (lastValue (str "URL") kvs [])]
      else []) =
      (if lastValue (str "URL") kvs [] ≠ [] then
        [(str "URL", lastValue (str "URL") kvs [])] else []).map
        mkKVLine := by
    rw [hL]
    by_cases h : lastValue (str "URL") kvs [] = []
    · simp [h]
    · rw [if_pos ⟨h, h, hsnurl⟩, if_pos h]
      rfl
  have hspecN : (if (if ns = [] then ([] : LCh) else joinNl ns) ≠ [] ∧
        pyStrip (if ns = [] then ([] : LCh) else joinNl ns) ≠ [] then
        [str "Notes:" ++ pyStrip (if ns = [] then ([] : LCh) else joinNl ns)]
      else []) =
      (match ns with
       | [] => []
       | n0 :: nrest => [str "Notes:" ++ joinNl (n0 :: nrest)]) := by
    cases ns with
    | nil => simp
    | cons n0 nrest =>
      have hne : joinNl (n0 :: nrest) ≠ [] :=
        joinNl_ne_nil n0 nrest (hns n0 (by simp)).1
      have hstr : pyStrip (joinNl (n0 :: nrest)) = joinNl (n0 :: nrest) :=
        pyStrip_joinNl _ (fun l hl => ⟨(hns l hl).1, (hns l hl).2.2⟩) (by simp)
      simp only [if_neg (show ¬ (n0 :: nrest : List LCh) = [] by simp), hstr]
      rw [if_pos ⟨hne, hne⟩]
  unfold notes_collapse
  simp only [expandResult]
  rw [hfind, hfilter]
  dsimp only
  rw [show pyStrip (str "NoteType") = str "NoteType" from by decide,
    pyStrip_idem t,
    collapse_lines_customs kvs (fun kv hkv => (hkeys kv hkv).1),
    hspecU, hspecP, hspecL, hspecN]
  rw [show (str "NoteType" ++ ':' :: pyStrip t) = str "NoteType:" ++ pyStrip t
    from rfl]
  unfold mkNoteBody specialPairs
  simp only [List.map_append, List.append_assoc, List.cons_append,
    List.nil_append, List.singleton_append]
  cases ns with
  | nil =>
    simp [notesTail]
  | cons n0 nrest =>
    rw [show notesTail (n0 :: nrest) = (str "Notes:" ++ n0) :: nrest from rfl]
    dsimp only
    simp only [Account.mk.injEq, and_true, true_and]
    exact joinNl_notes_tail _ _ _ _ _ n0 nrest

theorem mem_specialPairs (kvs : List (LCh × LCh)) (kv2 : LCh × LCh)
    (h : kv2 ∈ specialPairs kvs) :
    kv2 = (str "Username", lastValue (str "Username") kvs []) ∨
    kv2 = (str "Password", lastValue (str "Password") kvs []) ∨
    kv2 = (str "URL", lastValue (str "URL") kvs []) := by
  unfold specialPairs at h
  rcases List.mem_append.mp h with h | h
  · rcases List.mem_append.mp h with h | h
    · by_cases hc : lastValue (str "Username") kvs [] ≠ []
      · rw [if_pos hc] at h
        exact Or.inl (List.mem_singleton.mp h)
      · rw [if_neg hc] at h
        cases h
    · by_cases hc : lastValue (str "Password") kvs [] ≠ []
      · rw [if_pos hc] at h
        exact Or.inr (Or.inl (List.mem_singleton.mp h))
      · rw [if_neg hc] at h
        cases h
  · by_cases hc : lastValue (str "URL") kvs [] ≠ []
    · rw [if_pos hc] at h
      exact Or.inr (Or.inr (List.mem_singleton.mp h))
    · rw [if_neg hc] at h
      cases h

theorem lastValue_if_singleton_ne (k k2 v : LCh) (c : Prop) [Decidable c]
    (d : LCh) (hne : ¬ k2 = k) :
    lastValue k (if c then [(k2, v)] else []) d = d := by
  by_cases hc : c
  · rw [if_pos hc]
    unfold lastValue
    rw [List.foldl_cons, if_neg hne]
    rfl
  · rw [if_neg hc]
    rfl

theorem lastValue_if_singleton_self (k v : LCh) (hv : pyStrip v = v)
    (d : LCh) :
    lastValue k (if v ≠ [] then [(k, v)] else []) d =
      if v ≠ [] then v else d := by
  by_cases hc : v ≠ []
  · rw [if_pos hc, if_pos hc]
    unfold lastValue
    rw [List.foldl_cons, if_pos rfl]
    exact hv
  · rw [if_neg hc, if_neg hc]
    rfl

/-- Claim C3 amended: the round-trip law holds for secure-note accounts
whose body is a `NoteType:` line followed by single-line `key:value` pairs
with colon-free, whitespace-trimmed keys distinct from the reserved
`NoteType`/`Notes` names, whose note type has no multiline template fields,
whose `URL` values are not the secure-note marker, and whose optional
`Notes:` section consists of nonempty whitespace-trimmed lines. -/
theorem notes_roundtrip_clean (a : Account) (t : LCh)
    (kvs : List (LCh × LCh)) (ns : List LCh)
    (hurl : a.url = str "http://sn")
    (hbody : a.notes = mkNoteBody t kvs ns)
    (ht : '\n' ∉ t)
    (hkvs : ∀ kv ∈ kvs, ':' ∉ kv.1 ∧ '\n' ∉ kv.1 ∧ '\n' ∉ kv.2 ∧
        pyStrip kv.1 = kv.1 ∧ kv.1 ≠ str "NoteType" ∧ kv.1 ≠ str "Notes")
    (hns : ∀ l ∈ ns, l ≠ [] ∧ '\n' ∉ l ∧ pyStrip l = l)
    (hnm : noMultiline (get_note_type_by_name (pyStrip t)))
    (hsnv : ∀ kv ∈ kvs, kv.1 = str "URL" → pyStrip kv.2 ≠ str "http://sn") :
    ((notes_expand a).bind (fun e => notes_expand (notes_collapse e))).map
        rtProj =
      (notes_expand a).map rtProj := by
  have hsnurl : lastValue (str "URL") kvs [] ≠ str "http://sn" :=
    lastValue_ne _ _ kvs [] (by decide) hsnv
  have h1 := notes_expand_clean a t kvs ns hurl hbody ht
    (fun kv hkv => ⟨(hkvs kv hkv).1, (hkvs kv hkv).2.1, (hkvs kv hkv).2.2.1,
      (hkvs kv hkv).2.2.2.2.2⟩) hns hnm
  have h2 := notes_collapse_clean a t kvs ns
    (fun kv hkv => ⟨(hkvs kv hkv).2.2.2.1, (hkvs kv hkv).2.2.2.2.1⟩) hns
    hsnurl
  have hlv_nl : ∀ k : LCh, '\n' ∉ lastValue k kvs [] := by
    intro k
    rcases lastValue_mem_or k kvs [] with h | ⟨kv, hkv, h⟩
    · rw [h]; simp
    · rw [h]
      exact fun hm => (hkvs kv hkv).2.2.1 (mem_pyStrip _ _ hm)
  have hcp_keys : ∀ kv2 ∈ customPairs kvs, isSpecialKey kv2.1 = false := by
    intro kv2 hkv2
    rcases mem_customPairs kvs kv2 hkv2 with ⟨kv, _, hsp, rfl⟩
    exact hsp
  have hkvs2 : ∀ kv2 ∈ customPairs kvs ++ specialPairs kvs,
      ':' ∉ kv2.1 ∧ '\n' ∉ kv2.1 ∧ '\n' ∉ kv2.2 ∧ kv2.1 ≠ str "Notes" := by
    intro kv2 hkv2
    rcases List.mem_append.mp hkv2 with hkv2 | hkv2
    · rcases mem_customPairs kvs kv2 hkv2 with ⟨kv, hkv, _, rfl⟩
      exact ⟨(hkvs kv hkv).1, (hkvs kv hkv).2.1,
        fun hm => (hkvs kv hkv).2.2.1 (mem_pyStrip _ _ hm),
        (hkvs kv hkv).2.2.2.2.2⟩
    · rcases mem_specialPairs kvs kv2 hkv2 with rfl | rfl | rfl
      · refine ⟨?_, ?_, hlv_nl _, ?_⟩
        · show ':' ∉ str "Username"
          decide
        · show '\n' ∉ str "Username"
          decide
        · show str "Username" ≠ str "Notes"
          decide
      · refine ⟨?_, ?_, hlv_nl _, ?_⟩
        · show ':' ∉ str "Password"
          decide
        · show '\n' ∉ str "Password"
          decide
        · show str "Password" ≠ str "Notes"
          decide
      · refine ⟨?_, ?_, hlv_nl _, ?_⟩
        · show ':' ∉ str "URL"
          decide
        · show '\n' ∉ str "URL"
          decide
        · show str "URL" ≠ str "Notes"
          decide
  have hnm2 : noMultiline (get_note_type_by_name (pyStrip (pyStrip t))) := by
    rw [pyStrip_idem]
    exact hnm
  rw [h1]
  rw [show ((some (expandResult a t kvs ns)).bind
      (fun e => notes_expand (notes_collapse e))) =
      notes_expand (notes_collapse (expandResult a t kvs ns)) from rfl]
  rw [h2]
  rw [notes_expand_clean _ (pyStrip t) (customPairs kvs ++ specialPairs kvs)
    ns rfl rfl (fun hm => ht (mem_pyStrip _ _ hm)) hkvs2 hns hnm2]
  have hU : pyStrip (lastValue (str "Username") kvs []) =
      lastValue (str "Username") kvs [] := pyStrip_lastValue _ kvs [] rfl
  have hP : pyStrip (lastValue (str "Password") kvs []) =
      lastValue (str "Password") kvs [] := pyStrip_lastValue _ kvs [] rfl
  have hL : pyStrip (lastValue (str "URL") kvs []) =
      lastValue (str "URL") kvs [] := pyStrip_lastValue _ kvs [] rfl
  have husr : lastValue (str "Username") (customPairs kvs ++ specialPairs kvs)
      [] = lastValue (str "Username") kvs [] := by
    rw [lastValue_append,
      lastValue_no_key _ (customPairs kvs) [] (fun kv2 hkv2 heq => by
        have := hcp_keys kv2 hkv2
        rw [heq] at this
        exact absurd this (by decide))]
    unfold specialPairs
    rw [lastValue_append, lastValue_append,
      lastValue_if_singleton_ne (str "Username") (str "Password") _ _ _
        (by decide),
      lastValue_if_singleton_ne (str "Username") (str "URL") _ _ _
        (by decide),
      lastValue_if_singleton_self _ _ hU _]
    by_cases h : lastValue (str "Username") kvs [] ≠ []
    · rw [if_pos h]
    · rw [if_neg h]
      rw [Ne, not_not] at h
      exact h.symm
  have hpwd : lastValue (str "Password") (customPairs kvs ++ specialPairs kvs)
      [] = lastValue (str "Password") kvs [] := by
    rw [lastValue_append,
      lastValue_no_key _ (customPairs kvs) [] (fun kv2 hkv2 heq => by
        have := hcp_keys kv2 hkv2
        rw [heq] at this
        exact absurd this (by decide))]
    unfold specialPairs
    rw [lastValue_append, lastValue_append,
      lastValue_if_singleton_ne (str "Password") (str "Username") _ _ _
        (by decide),
      lastValue_if_singleton_ne (str "Password") (str "URL") _ _ _
        (by decide),
      lastValue_if_singleton_self _ _ hP _]
    by_cases h : lastValue (str "Password") kvs [] ≠ []
    · rw [if_pos h]
    · rw [if_neg h]
      rw [Ne, not_not] at h
      exact h.symm
  have hurl2 : lastValue (str "URL") (customPairs kvs ++ specialPairs kvs)
      [] = lastValue (str "URL") kvs [] := by
    rw [lastValue_append,
      lastValue_no_key _ (customPairs kvs) [] (fun kv2 hkv2 heq => by
        have := hcp_keys kv2 hkv2
        rw [heq] at this
        exact absurd this (by decide))]
    unfold specialPairs
    rw [lastValue_append, lastValue_append,
      lastValue_if_singleton_ne (str "URL") (str "Username") _ _ _
        (by decide),
      lastValue_if_singleton_ne (str "URL") (str "Password") _ _ _
        (by decide),
      lastValue_if_singleton_self _ _ hL _]
    by_cases h : lastValue (str "URL") kvs [] ≠ []
    · rw [if_pos h]
    · rw [if_neg h]
      rw [Ne, not_not] at h
      exact h.symm
  have hflds : customsOf (customPairs kvs ++ specialPairs kvs) =
      customsOf kvs := by
    rw [customsOf_append, customsOf_customPairs, customsOf_specialPairs,
      List.append_nil]
  unfold expandResult rtProj
  dsimp only
  rw [husr, hpwd, hurl2, hflds, pyStrip_idem]

/-- A concrete clean Server secure note for the amended round-trip law. -/
def c3WitnessAccount : Account :=
  { id := str "9", name := str "srv", username := [], password := [],
    url := str "http://sn", group := [],
    notes := str "NoteType:Server\nHostname:h\nUsername:u\nNotes:line1\nline2",
    fullname := str "srv", last_touch := [], last_modified_gmt := [],
    pwprotect := false, favorite := false, is_app := false,
    attach_present := false, attachkey := [], fields := [],
    attachments := [], share := none }

/-- Witness for the amended C3 at a concrete clean Server note. -/
theorem notes_roundtrip_clean_witness :
    ((notes_expand c3WitnessAccount).bind
        (fun e => notes_expand (notes_collapse e))).map rtProj =
      (notes_expand c3WitnessAccount).map rtProj :=
  notes_roundtrip_clean c3WitnessAccount (str "Server")
    [(str "Hostname", str "h"), (str "Username", str "u")]
    [str "line1", str "line2"]
    (by decide) (by decide) (by decide) (by decide) (by decide)
    (by rfl) (by decide)

/-! Account search and lookup from `client.py`
(`LastPassClient.search_accounts` and `LastPassClient.find_account`); the
in-memory account list is passed explicitly. -/

/-- The loop of `search_accounts`: skip accounts of another group when a
non-empty group filter is given, short-circuit to a singleton on an exact id
match, and otherwise collect case-insensitive substring matches over
name/fullname/username/url. -/
def searchGo (q ql : LCh) (group : Option LCh) :
    List Account → List Account → List Account
  | [], acc => acc
  | a :: rest, acc =>
      if group.getD [] ≠ [] ∧ a.group ≠ group.getD [] then
        searchGo q ql group rest acc
      else if a.id = q then [a]
      else if ql <:+: pyLower a.name ∨ ql <:+: pyLower a.fullname
          ∨ ql <:+: pyLower a.username ∨ ql <:+: pyLower a.url
      then searchGo q ql group rest (acc ++ [a])
      else searchGo q ql group rest acc

/-- Model of `LastPassClient.search_accounts` (sync elided: the account list
is the already-loaded vault state). -/
def search_accounts (accounts : List Account) (query : LCh)
    (group : Option LCh) : List Account :=
  searchGo query (pyLower query) group accounts []

/-- The message of the AccountNotFoundException raised on multiple matches. -/
def multiMatchMsg (query : LCh) (ms : List Account) : LCh :=
  str "Multiple accounts match '" ++ query ++ str "': " ++
    List.intercalate (str ", ") (ms.map (fun a => a.fullname))

/-- Model of `LastPassClient.find_account`: `none` when nothing matches, an
AccountNotFoundException carrying all matches when more than one account
matches, the unique match otherwise. -/
def find_account (accounts : List Account) (query : LCh) :
    Except LCh (Option Account) :=
  if search_accounts accounts query none = [] then .ok none
  else if 1 < (search_accounts accounts query none).length then
    .error (multiMatchMsg query (search_accounts accounts query none))
  else .ok (search_accounts accounts query none).head?

theorem searchGo_none_id (q ql : LCh) :
    ∀ (accounts acc : List Account), (∃ a ∈ accounts, a.id = q) →
      ∃ b, b.id = q ∧ searchGo q ql none accounts acc = [b]
  | [], _, h => by simp at h
  | a :: rest, acc, h => by
    rw [searchGo]
    rw [if_neg (by simp)]
    by_cases hid : a.id = q
    · rw [if_pos hid]
      exact ⟨a, hid, rfl⟩
    · rw [if_neg hid]
      have hrest : ∃ b ∈ rest, b.id = q := by
        rcases h with ⟨b, hb, hbq⟩
        rcases List.mem_cons.mp hb with rfl | hb
        · exact absurd hbq hid
        · exact ⟨b, hb, hbq⟩
      by_cases hsub : ql <:+: pyLower a.name ∨ ql <:+: pyLower a.fullname
          ∨ ql <:+: pyLower a.username ∨ ql <:+: pyLower a.url
      · rw [if_pos hsub]
        exact searchGo_none_id q ql rest (acc ++ [a]) hrest
      · rw [if_neg hsub]
        exact searchGo_none_id q ql rest acc hrest

/-- Claim C5: `find_account` returns none on zero matches, raises the
not-found error carrying all matches on two or more matches, returns the
unique match otherwise, and an exact id match always short-circuits the
search to that unique account. -/
theorem find_account_spec (accounts : List Account) (query : LCh) :
    (search_accounts accounts query none = [] →
      find_account accounts query = .ok none) ∧
    (1 < (search_accounts accounts query none).length →
      find_account accounts query =
        .error (multiMatchMsg query (search_accounts accounts query none))) ∧
    ((search_accounts accounts query none).length = 1 →
      find_account accounts query =
        .ok (search_accounts accounts query none).head?) ∧
    ((∃ a ∈ accounts, a.id = query) →
      ∃ b, b.id = query ∧ search_accounts accounts query none = [b] ∧
        find_account accounts query = .ok (some b)) := by
  refine ⟨?_, ?_, ?_, ?_⟩
  · intro h
    rw [find_account, if_pos h]
  · intro h
    have hne : search_accounts accounts query none ≠ [] := by
      intro hc
      rw [hc] at h
      simp at h
    rw [find_account, if_neg hne, if_pos h]
  · intro h
    have hne : search_accounts accounts query none ≠ [] := by
      intro hc
      rw [hc] at h
      simp at h
    rw [find_account, if_neg hne, if_neg (by omega)]
  · intro h
    obtain ⟨b, hbq, hb⟩ := searchGo_none_id query (pyLower query) accounts [] h
    have hb' : search_accounts accounts query none = [b] := hb
    refine ⟨b, hbq, hb', ?_⟩
    rw [find_account, hb']
    rw [if_neg (by simp), if_neg (by simp)]
    rfl

/-- A plain Gmail account for the find witnesses. -/
def g1acc : Account :=
  { id := str "5", name := str "Gmail", username := str "joe",
    password := str "p1", url := str "https://gmail.com", group := [],
    notes := [], fullname := str "Gmail", last_touch := [],
    last_modified_gmt := [], pwprotect := false, favorite := false,
    is_app := false, attach_present := false, attachkey := [], fields := [],
    attachments := [], share := none }

/-- A Work-grouped Gmail account for the find witnesses. -/
def g2acc : Account :=
  { id := str "1234", name := str "Gmail", username := str "sam",
    password := str "p2", url := str "https://gmail.com",
    group := str "Work", notes := [], fullname := str "Work/Gmail",
    last_touch := [], last_modified_gmt := [], pwprotect := false,
    favorite := false, is_app := false, attach_present := false,
    attachkey := [], fields := [], attachments := [], share := none }

/-- Witness for C5 over a two-account vault: zero matches, an ambiguous
query, a unique substring match, and an exact id match. -/
theorem find_account_spec_witness :
    find_account [g1acc, g2acc] (str "zzz") = .ok none ∧
    find_account [g1acc, g2acc] (str "gmail") =
      .error (multiMatchMsg (str "gmail")
        (search_accounts [g1acc, g2acc] (str "gmail") none)) ∧
    find_account [g1acc, g2acc] (str "work") =
      .ok (search_accounts [g1acc, g2acc] (str "work") none).head? ∧
    (∃ b, b.id = str "1234" ∧
      search_accounts [g1acc, g2acc] (str "1234") none = [b] ∧
      find_account [g1acc, g2acc] (str "1234") = .ok (some b)) :=
  ⟨(find_account_spec [g1acc, g2acc] (str "zzz")).1 (by decide),
   (find_account_spec [g1acc, g2acc] (str "gmail")).2.1 (by decide),
   (find_account_spec [g1acc, g2acc] (str "work")).2.2.1 (by decide),
   (find_account_spec [g1acc, g2acc] (str "1234")).2.2.2
     ⟨g2acc, by decide, by decide⟩⟩

/-- Model of CPython `bytes.decode('utf-8', errors='replace')`: well-formed
UTF-8 sequences decode to their code point, and each maximal subpart of an
ill-formed sequence is replaced by a single U+FFFD (65533).  Lead byte
ranges and continuation ranges (E0: A0-BF, ED: 80-9F, F0: 90-BF, F4: 80-8F)
follow the CPython decoder. -/
def utf8DecodeReplace : List Nat → List Nat
  | [] => []
  | b :: rest =>
      if b < 128 then b :: utf8DecodeReplace rest
      else if 194 ≤ b ∧ b ≤ 223 then
        match rest with
        | [] => [65533]
        | b1 :: rest1 =>
            if 128 ≤ b1 ∧ b1 ≤ 191 then
              ((b - 192) * 64 + (b1 - 128)) :: utf8DecodeReplace rest1
            else 65533 :: utf8DecodeReplace (b1 :: rest1)
      else if 224 ≤ b ∧ b ≤ 239 then
        match rest with
        | [] => [65533]
        | b1 :: rest1 =>
            if (if b = 224 then 160 ≤ b1 ∧ b1 ≤ 191
                else if b = 237 then 128 ≤ b1 ∧ b1 ≤ 159
                else 128 ≤ b1 ∧ b1 ≤ 191) then
              match rest1 with
              | [] => [65533]
              | b2 :: rest2 =>
                  if 128 ≤ b2 ∧ b2 ≤ 191 then
                    ((b - 224) * 4096 + (b1 - 128) * 64 + (b2 - 128)) ::
                      utf8DecodeReplace rest2
                  else 65533 :: utf8DecodeReplace (b2 :: rest2)
            else 65533 :: utf8DecodeReplace (b1 :: rest1)
      else if 240 ≤ b ∧ b ≤ 244 then
        match rest with
        | [] => [65533]
        | b1 :: rest1 =>
            if (if b = 240 then 144 ≤ b1 ∧ b1 ≤ 191
                else if b = 244 then 128 ≤ b1 ∧ b1 ≤ 143
                else 128 ≤ b1 ∧ b1 ≤ 191) then
              match rest1 with
              | [] => [65533]
              | b2 :: rest2 =>
                  if 128 ≤ b2 ∧ b2 ≤ 191 then
                    match rest2 with
                    | [] => [65533]
                    | b3 :: rest3 =>
                        if 128 ≤ b3 ∧ b3 ≤ 191 then
                          ((b - 240) * 262144 + (b1 - 128) * 4096 +
                            (b2 - 128) * 64 + (b3 - 128)) ::
                            utf8DecodeReplace rest3
                        else 65533 :: utf8DecodeReplace (b3 :: rest3)
                  else 65533 :: utf8DecodeReplace (b2 :: rest2)
            else 65533 :: utf8DecodeReplace (b1 :: rest1)
      else 65533 :: utf8DecodeReplace rest

/-- Model of `aes_decrypt_base64` from `cipher.py`: empty input returns the
empty string; otherwise the input is base64-decoded, AES-decrypted, and the
resulting plaintext BYTES are turned into TEXT by a lossy
`decode('utf-8', errors='replace')`.  The returned value is the code-point
sequence of that string. -/
def aes_decrypt_base64 (dec : List Nat → List Nat) (ciphertext : List Nat) :
    Except Unit (List Nat) :=
  if ciphertext = [] then .ok []
  else (aes_decrypt dec (b64Decode ciphertext)).map utf8DecodeReplace

/-- The module-level alias `decrypt_aes256_cbc_base64 = aes_decrypt_base64`
at the bottom of `cipher.py`: the name suggests a raw-bytes decryptor but it
is the lossy string variant. -/
def decrypt_aes256_cbc_base64 :
    (List Nat → List Nat) → List Nat → Except Unit (List Nat) :=
  aes_decrypt_base64

/-- The decryption step of `LastPassClient.get_attachment` in `client.py`:
the fetched attachment payload is passed to `cipher.decrypt_aes256_cbc_base64`
with `self.encryption_key` (the client vault key, abstracted as the block map
`dec`), not a per-account attachment key. -/
def get_attachment_decrypt (dec : List Nat → List Nat)
    (encrypted_data : List Nat) : Except Unit (List Nat) :=
  decrypt_aes256_cbc_base64 dec encrypted_data

theorem toBlocks_sixteen (l : List Nat) (h : l.length = 16) :
    toBlocks l = [l] := by
  rw [toBlocks, if_neg (by intro hc; subst hc; simp at h)]
  rw [List.take_of_length_le (by omega), List.drop_eq_nil_of_le (by omega),
    toBlocks_nil]

/-- Claim C6 is refuted by the code: a one-byte binary attachment plaintext
`0xff` (an ECB ciphertext of sixteen bytes under the abstracted key) comes
back from the attachment decryption step as the single code point U+FFFD
(65533), not as the raw byte 255, because `get_attachment` calls the lossy
string variant `decrypt_aes256_cbc_base64` instead of a raw-bytes
decryptor. -/
theorem get_attachment_binary_corrupted :
    aes_decrypt (fun b => b) (255 :: List.replicate 15 15) = .ok [255] ∧
    get_attachment_decrypt (fun b => b)
        (b64Encode (255 :: List.replicate 15 15)) = .ok [65533] ∧
    (65533 : Nat) ≠ 255 := by
  have hdec : aes_decrypt (fun b => b) (255 :: List.replicate 15 15) =
      .ok [255] := by
    rw [aes_decrypt]
    rw [if_neg (by decide), if_pos (by decide),
      toBlocks_sixteen _ (by decide)]
    exact congrArg Except.ok (by decide)
  refine ⟨hdec, ?_, by decide⟩
  show aes_decrypt_base64 (fun b => b)
    (b64Encode (255 :: List.replicate 15 15)) = Except.ok [65533]
  rw [aes_decrypt_base64, if_neg (by decide)]
  rw [show b64Decode (b64Encode (255 :: List.replicate 15 15)) =
    255 :: List.replicate 15 15 from by decide]
  rw [hdec]
  exact congrArg Except.ok (by decide)

/-! CSV import from `csv_utils.py` (`import_accounts_from_csv`).  A parsed
CSV row, as produced by `csv.DictReader`, is an ordered association list
from column name to cell value. -/

abbrev Row := List (LCh × LCh)

/-- Model of `row.get(key, "")` on a `DictReader` row. -/
def rowGet (r : Row) (k : LCh) : LCh :=
  ((r.find? (fun p => p.1 = k)).map Prod.snd).getD []

/-- Model of `key in row`. -/
def hasKey (r : Row) (k : LCh) : Bool := r.any (fun p => p.1 = k)

/-- The dedup key built by the source:
`identifier = f"{group}/{name}:{username}"`. -/
def identifier (r : Row) : LCh :=
  rowGet r (str "grouping") ++ '/' :: rowGet r (str "name") ++
    ':' :: rowGet r (str "username")

/-- The (group, name, username) triple of a row. -/
def tripleOf (r : Row) : LCh × LCh × LCh :=
  (rowGet r (str "grouping"), rowGet r (str "name"), rowGet r (str "username"))

/-- The column names treated as standard by the import. -/
def standard_fields : List LCh :=
  [str "url", str "username", str "password", str "extra", str "name",
   str "grouping", str "fav", str "id", str "attachpresent",
   str "last_touch", str "last_modified", str "fullname"]

/-- The account dictionary built from one CSV row: standard columns into
named entries, `fav` into the optional favorite flag, and every other
truthy column into the custom-field list in row order. -/
structure ImportedAccount where
  name : LCh
  username : LCh
  password : LCh
  url : LCh
  notes : LCh
  group : LCh
  favorite : Option Bool
  fields : List (LCh × LCh)
deriving DecidableEq

/-- One row of the import loop body: the dictionary appended for a
non-skipped row. -/
def mkImported (r : Row) : ImportedAccount :=
  { name := rowGet r (str "name")
    username := rowGet r (str "username")
    password := rowGet r (str "password")
    url := rowGet r (str "url")
    notes := rowGet r (str "extra")
    group := rowGet r (str "grouping")
    favorite := if hasKey r (str "fav") then
        some (rowGet r (str "fav") = str "1") else none
    fields := r.filter (fun p => p.1 ∉ standard_fields ∧ p.2 ≠ []) }

/-- The row loop of `import_accounts_from_csv` with its `seen_names`
accumulator: with `keep_duplicates` false a row whose identifier was
already seen is skipped, otherwise its identifier is recorded. -/
def importGo (keep : Bool) : List Row → List LCh → List ImportedAccount
  | [], _ => []
  | r :: rest, seen =>
      if keep then mkImported r :: importGo keep rest seen
      else if identifier r ∈ seen then importGo keep rest seen
      else mkImported r :: importGo keep rest (identifier r :: seen)

/-- Model of `import_accounts_from_csv` on already-parsed rows. -/
def import_accounts_from_csv (rows : List Row) (keep_duplicates : Bool) :
    List ImportedAccount :=
  importGo keep_duplicates rows []

/-- The import behaviour the specification describes, written from its
words: keep each row, dropping every LATER row that collides with it on
the dedup key, recursively. -/
def specImport : List Row → List ImportedAccount
  | [] => []
  | r :: rest =>
      mkImported r ::
        specImport (rest.filter (fun s => ¬ identifier s = identifier r))
termination_by rows => rows.length
decreasing_by
  simp only [List.length_cons]
  exact Nat.lt_succ_of_le (List.length_filter_le _ _)

theorem importGo_false_spec : ∀ (rows : List Row) (seen : List LCh),
    importGo false rows seen =
      specImport (rows.filter (fun r => ¬ identifier r ∈ seen))
  | [], _ => by simp [importGo, specImport]
  | r :: rest, seen => by
    rw [importGo, if_neg (by simp)]
    by_cases hmem : identifier r ∈ seen
    · rw [if_pos hmem, List.filter_cons_of_neg (by simpa using hmem)]
      exact importGo_false_spec rest seen
    · rw [if_neg hmem, List.filter_cons_of_pos (by simpa using hmem)]
      rw [specImport]
      rw [importGo_false_spec rest (identifier r :: seen)]
      congr 1
      refine congrArg specImport ?_
      rw [List.filter_filter]
      apply List.filter_congr
      intro s _
      simp only [List.mem_cons, not_or, decide_not, Bool.decide_and,
        Bool.not_eq_true']

/-- Two concrete rows with distinct (group, name, username) triples whose
dedup identifiers collide. -/
def csvRow1 : Row :=
  [(str "grouping", str "a/b"), (str "name", str "c"),
   (str "username", str "u")]

/-- See `csvRow1`. -/
def csvRow2 : Row :=
  [(str "grouping", str "a"), (str "name", str "b/c"),
   (str "username", str "u")]

/-- Counterexample to claim C7 as stated: the two rows have different
(group, name, username) triples, yet with keep_duplicates=false only one of
them is retained, because the dedup key is the collapsed string
`group/name:username` and both rows collapse to `a/b/c:u`. -/
theorem import_dedup_cex :
    tripleOf csvRow1 ≠ tripleOf csvRow2 ∧
    identifier csvRow1 = identifier csvRow2 ∧
    (import_accounts_from_csv [csvRow1, csvRow2] false).length = 1 := by
  refine ⟨by decide, by decide, ?_⟩
  show (importGo false [csvRow1, csvRow2] []).length = 1
  rw [importGo, if_neg (by simp), if_neg (by simp)]
  rw [importGo, if_neg (by simp), if_pos (by decide)]
  rfl

/-- Claim C7 amended: with keep_duplicates=false the import keeps exactly
the rows whose dedup key `group/name:username` has not occurred in an
earlier row (first occurrence wins, order preserved); rows with equal
(group, name, username) triples always share the dedup key, so genuine
duplicates are still skipped, but distinct triples may collide. -/
theorem import_dedup_by_identifier (rows : List Row) :
    import_accounts_from_csv rows false = specImport rows ∧
    (∀ r s : Row, tripleOf r = tripleOf s → identifier r = identifier s) := by
  constructor
  · show importGo false rows [] = _
    rw [importGo_false_spec rows []]
    congr 1
    apply List.filter_eq_self.mpr
    intro a _
    simp
  · intro r s h
    have h1 : rowGet r (str "grouping") = rowGet s (str "grouping") :=
      congrArg (fun t => t.1) h
    have h2 : rowGet r (str "name") = rowGet s (str "name") :=
      congrArg (fun t => t.2.1) h
    have h3 : rowGet r (str "username") = rowGet s (str "username") :=
      congrArg (fun t => t.2.2) h
    rw [identifier, identifier, h1, h2, h3]

/-! Upload queue from `upload_queue.py` (`UploadQueue.upload_all`).  The
queue directory, lock directory and failed directory are modelled as lists
of filenames; a queue file carries a flag saying whether it decrypts (a
file that fails to decrypt or parse is skipped).  The HTTP transport is
abstracted as the status code of the n-th `http.post` call; sleeping
between attempts has no observable effect on this state.

Two statements of the source cannot run as written.  The first statement
of `upload_all` is `from .http import HttpClient`, but `http.py` defines
only `HTTPClient` (no alias, no module `__getattr__`), so that lookup is
an ImportError raised before any directory or transport access.  And
`HTTPClient.post` returns the tuple `(response_body, status_code)`, so the
later attribute access `response.status_code` on that tuple is an
AttributeError, swallowed by the attempt loop's `except Exception` as a
retry.  Both are modelled explicitly below. -/

def MAX_RETRIES : Nat := 5

/-- The top-level names `http.py` binds (its imports and its one class): the
namespace `from .http import ...` resolves against. -/
def httpModuleAttrs : List LCh :=
  [str "requests", str "time", str "Optional", str "Dict", str "Any",
   str "List", str "Tuple", str "urlencode", str "NetworkException",
   str "LoginFailedException", str "Session", str "HTTPClient"]

/-- `from .http import HttpClient`: succeeds iff `http.py` binds that exact
name, otherwise ImportError. -/
def importHttpClient : Except Unit Unit :=
  if str "HttpClient" ∈ httpModuleAttrs then .ok () else .error ()

/-- Attribute access `response.status_code` on the `(body, status_code)`
tuple `HTTPClient.post` returns: a tuple has no such attribute, so the
lookup is an AttributeError. -/
def tupleStatusCode : List Nat × Nat → Except Unit Nat := fun _ => .error ()

structure QueueState where
  queue : List (Nat × Bool)
  locks : List Nat
  failed : List Nat
  calls : Nat
deriving DecidableEq

/-- Model of `_get_next_entry`: walk the sorted queue listing, skip files
whose lock already exists, acquire the lock (O_CREAT|O_EXCL) otherwise, and
return the first file that decrypts; an undecryptable file has its fresh
lock removed again and is skipped.  Returns the chosen filename and the
lock list after acquisition. -/
def getNextEntry (locks : List Nat) : List (Nat × Bool) →
    Option (Nat × List Nat)
  | [] => none
  | (name, dec) :: rest =>
      if name ∈ locks then getNextEntry locks rest
      else if dec then some (name, name :: locks)
      else getNextEntry locks rest

/-- Model of the attempt loop `for attempt in range(MAX_RETRIES)`: each
iteration makes one transport call (`http.post` returns the tuple
`(body, statuses calls)`), then reads `response.status_code`; that raising
is caught by `except Exception` and counts as a retry.  In the branch where
the read yields a status, 200 succeeds and stops, 500 or more retries, any
other status stops without success — but `tupleStatusCode` never yields
one.  Returns the success flag and the updated call counter. -/
def attemptLoop (statuses : Nat → Nat) : Nat → Nat → Bool × Nat
  | 0, calls => (false, calls)
  | fuel + 1, calls =>
      match tupleStatusCode ([], statuses calls) with
      | .error () => attemptLoop statuses fuel (calls + 1)
      | .ok s =>
          if s = 200 then (true, calls + 1)
          else if 500 ≤ s then attemptLoop statuses fuel (calls + 1)
          else (false, calls + 1)

/-- The `while True` body of `upload_all`, fuelled: fetch the next entry,
run the attempt loop, then `_drop_entry` (unlink file and lock) on success
or `_mark_failed` (rename into failed/, unlink lock) otherwise; the final
`lock_file.unlink` is a no-op after either.  Every processed file leaves
the queue, so `queue.length + 1` fuel runs the loop to its `break`. -/
def uploadAllGo (statuses : Nat → Nat) : Nat → QueueState → QueueState
  | 0, st => st
  | fuel + 1, st =>
      match getNextEntry st.locks st.queue with
      | none => st
      | some (name, locks1) =>
          match attemptLoop statuses MAX_RETRIES st.calls with
          | (success, calls1) =>
              uploadAllGo statuses fuel
                { queue := st.queue.filter (fun e => ¬ e.1 = name)
                  locks := locks1.filter (fun n => ¬ n = name)
                  failed := if success then st.failed else name :: st.failed
                  calls := calls1 }

/-- Model of `UploadQueue.upload_all`: its first statement
`from .http import HttpClient` either raises (leaving the queue state as it
was, with no transport call made) or lets the loop run
(`_cleanup_failures` prunes only entries older than 14 days and is
elided).  Returns the outcome and the queue state after the call. -/
def upload_all (statuses : Nat → Nat) (st : QueueState) :
    Except Unit Unit × QueueState :=
  match importHttpClient with
  | .error () => (.error (), st)
  | .ok () => (.ok (), uploadAllGo statuses (st.queue.length + 1) st)

/-- Claim C8 is refuted by the code: with a single pending, decryptable
queue entry and a transport answering 500 four times then 200, `upload_all`
raises ImportError at its first statement (`http.py` defines `HTTPClient`,
not `HttpClient`), making zero transport calls and leaving the entry in
the queue; and even the loop past that import (run here directly with the
same fuel `upload_all` would give it) never recognises the fifth call's
200, because `response.status_code` on the returned tuple raises on every
attempt and is caught as a retry, so the entry is moved to failed/. -/
theorem upload_all_import_error :
    upload_all (fun n => if n < 4 then 500 else 200)
        { queue := [(1, true)], locks := [], failed := [], calls := 0 } =
      (.error (),
        { queue := [(1, true)], locks := [], failed := [], calls := 0 }) ∧
    uploadAllGo (fun n => if n < 4 then 500 else 200) 2
        { queue := [(1, true)], locks := [], failed := [], calls := 0 } =
      { queue := [], locks := [], failed := [1], calls := 5 } :=
  ⟨rfl, by decide⟩

/-! Logout from `client.py` (`LastPassClient.logout`).  The client state
tracked by logout: the in-memory session and decryption key, the cached
accounts and shares, the blob-loaded flag, and whether a session file
exists on disk (deleted by `Session.kill`).  The server notification
`self.http.logout` is abstracted by the flag `serverFails`: whether it
raises. -/

structure ClientState where
  session : Option Nat
  decryption_key : Option (List Nat)
  accounts : List Account
  shares : List Share
  blob_loaded : Bool
  disk_session : Bool
deriving DecidableEq

/-- The state logout leaves behind: no session in memory or on disk, no
key, empty caches. -/
def clearedState : ClientState :=
  { session := none
    decryption_key := none
    accounts := []
    shares := []
    blob_loaded := false
    disk_session := false }

/-- Model of `LastPassClient.logout`: if a session is present the server is
notified, and a failure there re-raises unless `force`; after that the
on-disk session file is deleted and all in-memory session state is
cleared. -/
def logout (serverFails force : Bool) (st : ClientState) :
    Except Unit ClientState :=
  if st.session.isSome ∧ serverFails ∧ ¬ force then .error ()
  else .ok clearedState

/-- Claim C9: with a session present and a failing server notification,
`logout force=true` still returns the fully cleared state, in memory and on
disk, while `logout force=false` surfaces the failure as an error. -/
theorem logout_force_clears (st : ClientState) (h : st.session.isSome) :
    logout true true st = .ok clearedState ∧
    logout true false st = .error () := by
  constructor
  · rw [logout, if_neg (by simp)]
  · rw [logout, if_pos ⟨by simpa using h, by simp⟩]

/-- A concrete logged-in client state for the C9 witness. -/
def loggedInState : ClientState :=
  { session := some 7
    decryption_key := some [1, 2]
    accounts := []
    shares := []
    blob_loaded := true
    disk_session := true }

/-- Witness for C9 at a concrete logged-in client state. -/
theorem logout_force_clears_witness :
    (loggedInState.session.isSome = true) ∧
    (logout true true loggedInState = .ok clearedState ∧
     logout true false loggedInState = .error ()) :=
  ⟨rfl, logout_force_clears loggedInState rfl⟩

end LastPass
